import Mathlib

/-!
# Verification of the Backgammon AI move engine

A shallow embedding of the AI module of the Backgammon repository
(`BackgammonAI`): the legal single-move oracle, the move simulator, the
recursive move-sequence generator, the strategic filters, the phase-aware
position evaluator and the transposition cache, together with proofs of the
specified properties (checker conservation, sequence maximality, bar
priority, bear-off gating, phase-detection priority, filter waiving,
cache transparency and the ordering/truncation pipeline).

Conventions of the embedding:
* JavaScript numbers holding checker counts, point indices, dice and bar /
  bear-off counters are embedded as `Int` (the source only ever holds
  integers in them, and may transiently rely on signed arithmetic).
* Evaluation scores, which the source computes with JavaScript floating
  point, are embedded as exact rationals `ℚ`; fractional literals such as
  `0.9` denote the exact rational the source text writes.
* The board array `gameState.board` (indices `0..24`, index `0` unused by
  the AI) is a `List PointState` of length 25; reads are `List.getD`,
  writes are `List.set`.
* The string `player${player}` field selection on `bar` / `bearoff`
  distinguishes `player === 1` from anything else, matching the source's
  two-player call sites (`player ∈ {1, 2}`).
-/

/-- One board point: `{ player, count }` exactly as in the source
(`player` is `0` for an empty point, otherwise the owning player). -/
structure PointState where
  player : Int
  count : Int
deriving DecidableEq, Repr

/-- The bar: per-player count of hit checkers (`gameState.bar`). -/
structure BarState where
  player1 : Int
  player2 : Int
deriving DecidableEq, Repr

/-- The bear-off trays (`gameState.bearoff`). -/
structure BearoffState where
  player1 : Int
  player2 : Int
deriving DecidableEq, Repr

/-- A game-state snapshot as consumed by the AI module: board points
`1..24` (index `0` unused), bar, bear-off trays, the mover and the
remaining dice. -/
structure GameState where
  board : List PointState
  bar : BarState
  bearoff : BearoffState
  currentPlayer : Int
  availableMoves : List Int
deriving DecidableEq, Repr

/-- A move source: the bar sentinel (the string `"bar"` in the source) or a
point index. -/
inductive Src where
  | bar : Src
  | point : Int → Src
deriving DecidableEq, Repr

/-- A move destination: the bear-off sentinel (the string `"bearoff"` in the
source) or a point index. -/
inductive Dest where
  | bearoff : Dest
  | point : Int → Dest
deriving DecidableEq, Repr

/-- An entry of the list returned by `getValidMovesForAI`: `{ to, die }`. -/
structure MoveTo where
  dest : Dest
  die : Int
deriving DecidableEq, Repr

/-- A full move record `{ from, to, die }` (the source's `from` field is
called `src` here because `from` is a reserved word in Lean). -/
structure Move where
  src : Src
  dest : Dest
  die : Int
deriving DecidableEq, Repr

/-- Read `gameState.bar[`player${player}`]`: the source template selects
`player1` for `player === 1` and `player2` for `player === 2`. -/
def barGet (b : BarState) (player : Int) : Int :=
  if player = 1 then b.player1 else b.player2

/-- Write the bar field selected by `player${player}`. -/
def barSet (b : BarState) (player : Int) (v : Int) : BarState :=
  if player = 1 then { b with player1 := v } else { b with player2 := v }

/-- Read `gameState.bearoff[`player${player}`]`. -/
def bearoffGet (b : BearoffState) (player : Int) : Int :=
  if player = 1 then b.player1 else b.player2

/-- Write the bear-off field selected by `player${player}`. -/
def bearoffSet (b : BearoffState) (player : Int) (v : Int) : BearoffState :=
  if player = 1 then { b with player1 := v } else { b with player2 := v }

/-- Read `gameState.board[i]`.  All reads performed by the AI module are at
indices `1..24` of a length-25 array, where `getD` agrees with the
JavaScript array access. -/
def boardGet (b : List PointState) (i : Int) : PointState :=
  b.getD i.toNat ⟨0, 0⟩

/-- Write `gameState.board[i] = p` (in-place in the source, functional
here). -/
def boardSet (b : List PointState) (i : Int) (p : PointState) : List PointState :=
  b.set i.toNat p

/-- `player === 1 ? 2 : 1` — the opponent as computed throughout the
source. -/
def opponentOf (player : Int) : Int :=
  if player = 1 then 2 else 1

/-- The list of integers `a, a+1, …, a+n-1`: the index range of a source
`for` loop. -/
def intRange (a : Int) : Nat → List Int
  | 0 => []
  | n + 1 => a :: intRange (a + 1) n

/-- The point indices `1..24`, the range of every full-board loop in the
source. -/
def boardRange : List Int := intRange 1 24

/-- `canMoveToPointForAI(gameState, toPoint, player)`: a destination point is
open when it is empty, owned by the mover, or holds a lone opponent
checker. -/
def canMoveToPointForAI (gs : GameState) (toPoint : Int) (player : Int) : Bool :=
  if toPoint < 1 ∨ 24 < toPoint then false
  else
    let pointState := boardGet gs.board toPoint
    if pointState.player = 0 ∨ pointState.player = player then true
    else if pointState.player ≠ player ∧ pointState.count = 1 then true
    else false

/-- `allCheckersInHomeBoardForAI(gameState, player)`: no mover checker on the
bar, and none on the 18 points outside the mover's home board (points
`19..24` are home for player 1, `1..6` for player 2). -/
def allCheckersInHomeBoardForAI (gs : GameState) (player : Int) : Bool :=
  if 0 < barGet gs.bar player then false
  else if player = 1 then
    (intRange 1 18).all fun p =>
      !((boardGet gs.board p).player = 1 ∧ 0 < (boardGet gs.board p).count)
  else
    (intRange 7 18).all fun p =>
      !((boardGet gs.board p).player = 2 ∧ 0 < (boardGet gs.board p).count)

/-- `canBearOffForAI(gameState, fromPoint, dieValue, player)`: bear-off needs
all checkers home; then either the die lands exactly on the exit, or it
overshoots and no mover checker sits on a home point behind `fromPoint`
(the source scans `fromPoint-1 … 19` for player 1 and `fromPoint+1 … 6`
for player 2). -/
def canBearOffForAI (gs : GameState) (fromPoint dieValue player : Int) : Bool :=
  if !allCheckersInHomeBoardForAI gs player then false
  else
    let toPoint := if player = 1 then fromPoint + dieValue else fromPoint - dieValue
    if (player = 1 ∧ toPoint = 25) ∨ (player = 2 ∧ toPoint = 0) then true
    else if (player = 1 ∧ 25 < toPoint) ∨ (player = 2 ∧ toPoint < 0) then
      if player = 1 then
        boardRange.all fun p =>
          !(19 ≤ p ∧ p ≤ fromPoint - 1 ∧ (boardGet gs.board p).player = 1 ∧
            0 < (boardGet gs.board p).count)
      else
        boardRange.all fun p =>
          !(fromPoint + 1 ≤ p ∧ p ≤ 6 ∧ (boardGet gs.board p).player = 2 ∧
            0 < (boardGet gs.board p).count)
    else false

/-- `getValidMovesForAI(gameState, fromPoint, availableMoves, player)`: the
legal single-move oracle.  Bar checkers force bar entry; otherwise each die
is tried from `fromPoint`, producing a bear-off candidate when the
destination falls beyond the board and a point move otherwise. -/
def getValidMovesForAI (gs : GameState) (fromPoint : Src) (availableMoves : List Int)
    (player : Int) : List MoveTo :=
  if 0 < barGet gs.bar player ∧ fromPoint ≠ Src.bar then []
  else
    match fromPoint with
    | Src.bar =>
      if barGet gs.bar player = 0 then []
      else
        availableMoves.filterMap fun mv =>
          let entryPoint := if player = 1 then mv else 25 - mv
          if canMoveToPointForAI gs entryPoint player then some ⟨Dest.point entryPoint, mv⟩
          else none
    | Src.point fp =>
      if (boardGet gs.board fp).player ≠ player ∨ (boardGet gs.board fp).count = 0 then []
      else
        availableMoves.filterMap fun mv =>
          let toPoint := if player = 1 then fp + mv else fp - mv
          if (player = 1 ∧ 25 ≤ toPoint) ∨ (player = 2 ∧ toPoint ≤ 0) then
            if canBearOffForAI gs fp mv player then some ⟨Dest.bearoff, mv⟩ else none
          else if 1 ≤ toPoint ∧ toPoint ≤ 24 then
            if canMoveToPointForAI gs toPoint player then some ⟨Dest.point toPoint, mv⟩
            else none
          else none

/-- `cloneState(gameState)`: the source's defensive deep copy; functionally
the identity on the embedded value. -/
def cloneState (gs : GameState) : GameState :=
  { board := gs.board.map fun p => { player := p.player, count := p.count }
    bar := { player1 := gs.bar.player1, player2 := gs.bar.player2 }
    bearoff := { player1 := gs.bearoff.player1, player2 := gs.bearoff.player2 }
    currentPlayer := gs.currentPlayer
    availableMoves := gs.availableMoves }

/-- The value stored into `board[from]` after `count--` followed by
`if (count === 0) player = 0`. -/
def decrementPoint (p : PointState) : PointState :=
  if p.count - 1 = 0 then { player := 0, count := 0 }
  else { player := p.player, count := p.count - 1 }

/-- The landing step shared verbatim by the source's bar-entry and normal-move
branches of `simulateMove`: if the destination holds opposing checkers, the
lone checker is hit (opponent bar incremented, point cleared); then the
destination either gains one mover checker or becomes a fresh mover point
of count 1. -/
def landOnPoint (s : GameState) (toP player : Int) : GameState :=
  let s2 :=
    if (boardGet s.board toP).player ≠ 0 ∧ (boardGet s.board toP).player ≠ player then
      let opponent := opponentOf player
      { s with bar := barSet s.bar opponent (barGet s.bar opponent + 1),
               board := boardSet s.board toP ⟨0, 0⟩ }
    else s
  if (boardGet s2.board toP).player = player then
    { s2 with board :=
        boardSet s2.board toP ⟨player, (boardGet s2.board toP).count + 1⟩ }
  else
    { s2 with board := boardSet s2.board toP ⟨player, 1⟩ }

set_option linter.unusedVariables false in
/-- `simulateMove(gameState, from, to, die, player)`: apply one move to a
fresh copy of the state.  The three branches mirror the source: bar entry
(with hit), bear-off, and normal point move (with hit).  The `die`
parameter is unused, exactly as in the source.  The combination
`from = "bar"`, `to = "bearoff"` never occurs (the oracle cannot produce
it; the source would fault on it) and is mapped to the cloned state. -/
def simulateMove (gs : GameState) (src : Src) (dst : Dest) (die player : Int) : GameState :=
  let newState := cloneState gs
  match src, dst with
  | Src.bar, Dest.point toP =>
    landOnPoint
      { newState with bar := barSet newState.bar player (barGet newState.bar player - 1) }
      toP player
  | Src.bar, Dest.bearoff => newState
  | Src.point fp, Dest.bearoff =>
    let s1 := { newState with
        board := boardSet newState.board fp (decrementPoint (boardGet newState.board fp)) }
    { s1 with bearoff := bearoffSet s1.bearoff player (bearoffGet s1.bearoff player + 1) }
  | Src.point fp, Dest.point toP =>
    landOnPoint
      { newState with
          board := boardSet newState.board fp (decrementPoint (boardGet newState.board fp)) }
      toP player

/-- The eligible sources of `generateAllMoveSequences`: the bar alone if the
mover has bar checkers, otherwise every point holding a mover checker. -/
def sourcePointsOf (gs : GameState) (player : Int) : List Src :=
  if 0 < barGet gs.bar player then [Src.bar]
  else
    (boardRange.filter fun i =>
      (boardGet gs.board i).player = player ∧ 0 < (boardGet gs.board i).count).map Src.point

/-- The recursive core of `generateAllMoveSequences`, with an explicit fuel
parameter bounding the recursion depth.  Each recursive call removes one
die instance from the pool (the die of a valid move is always in the
pool), so with `fuel = availableMoves.length` the fuel never runs out
before the pool empties; when it reaches `0` the pool is empty and the
result `[[]]` coincides with the source's empty-pool base case. -/
def genSeqs (player : Int) : Nat → GameState → List Int → List (List Move)
  | 0, _, _ => [[]]
  | fuel + 1, gs, avail =>
    if avail.isEmpty then [[]]
    else
      let sequences :=
        (sourcePointsOf gs player).flatMap fun source =>
          (getValidMovesForAI gs source avail player).flatMap fun mv =>
            let newState := simulateMove gs source mv.dest mv.die player
            let newAvailableMoves := avail.erase mv.die
            (genSeqs player fuel newState newAvailableMoves).map fun seq =>
              ⟨source, mv.dest, mv.die⟩ :: seq
      if sequences.isEmpty then [[]] else sequences

/-- `generateAllMoveSequences(gameState, availableMoves, player)`: every
maximal legal assignment of the remaining dice to moves, as an ordered
sequence list. -/
def generateAllMoveSequences (gs : GameState) (availableMoves : List Int)
    (player : Int) : List (List Move) :=
  genSeqs player availableMoves.length gs availableMoves

/-- Sequentially apply a move list with `simulateMove` (the state threading
performed by `applySequenceAndScore` and by the generator's recursion). -/
def applyMoves (gs : GameState) (moves : List Move) (player : Int) : GameState :=
  moves.foldl (fun s m => simulateMove s m.src m.dest m.die player) gs

/-- The dice pool left after consuming the dice of a move sequence, one
`indexOf`/`splice` (= `List.erase`) per move. -/
def remainingDice (avail : List Int) (moves : List Move) : List Int :=
  moves.foldl (fun a m => a.erase m.die) avail

/-- Every source the oracle can be consulted on: the bar and the 24 board
points (the source never reads the board outside `1..24`). -/
def allSources : List Src := Src.bar :: boardRange.map Src.point

/-- The contribution of one point to a player's on-board checker count. -/
def contrib (p : PointState) (player : Int) : Int :=
  if p.player = player then p.count else 0

/-- A player's on-board checker count over a raw board. -/
def boardCount (b : List PointState) (player : Int) : Int :=
  (boardRange.map fun i => contrib (boardGet b i) player).sum

/-- The mover's on-board checker count: the sum of `count` over the points
owned by `player`. -/
def onBoardCount (gs : GameState) (player : Int) : Int :=
  boardCount gs.board player

/-- `on-board + bar + borne-off` for one player. -/
def checkerTotal (gs : GameState) (player : Int) : Int :=
  onBoardCount gs player + barGet gs.bar player + bearoffGet gs.bearoff player

/-- The checker-conservation invariant: each player accounts for exactly 15
checkers. -/
def Conserved (gs : GameState) : Prop :=
  checkerTotal gs 1 = 15 ∧ checkerTotal gs 2 = 15

/-- Pointwise well-formedness of a board: every entry names a real owner
(`0`, `1` or `2`) and carries a non-negative count. -/
def pointsWF (b : List PointState) : Prop :=
  ∀ p ∈ b, (p.player = 0 ∨ p.player = 1 ∨ p.player = 2) ∧ 0 ≤ p.count

/-- Structural well-formedness of a snapshot: a length-25 board whose
entries are pointwise well formed, with non-negative bar and tray
counters. -/
def WFState (gs : GameState) : Prop :=
  gs.board.length = 25 ∧ pointsWF gs.board ∧
  0 ≤ gs.bar.player1 ∧ 0 ≤ gs.bar.player2 ∧
  0 ≤ gs.bearoff.player1 ∧ 0 ≤ gs.bearoff.player2

instance : DecidablePred pointsWF := fun b => by
  unfold pointsWF; infer_instance

instance : DecidablePred WFState := fun gs => by
  unfold WFState; infer_instance

instance : DecidablePred Conserved := fun gs => by
  unfold Conserved; infer_instance

/-- Build a length-25 board from a point-description function (test fixture
helper; index 0 is the unused slot). -/
def mkBoard (f : Int → PointState) : List PointState :=
  (List.range 25).map fun n => f (n : Int)

/-- The standard backgammon starting position as `game.js` sets it up:
player 1 on 1/12/17/19, player 2 on 24/13/8/6. -/
def startBoard : List PointState := mkBoard fun i =>
  if i = 1 then ⟨1, 2⟩ else if i = 12 then ⟨1, 5⟩ else if i = 17 then ⟨1, 3⟩
  else if i = 19 then ⟨1, 5⟩
  else if i = 24 then ⟨2, 2⟩ else if i = 13 then ⟨2, 5⟩ else if i = 8 then ⟨2, 3⟩
  else if i = 6 then ⟨2, 5⟩ else ⟨0, 0⟩

/-- The starting snapshot with player 2 to move on a 3-1 roll. -/
def startState : GameState :=
  { board := startBoard, bar := ⟨0, 0⟩, bearoff := ⟨0, 0⟩, currentPlayer := 2,
    availableMoves := [3, 1] }

/-- A snapshot where player 2 sits on the bar and the only entry point for
the remaining die is blocked: the forced-pass scenario. -/
def blockedEntryState : GameState :=
  { board := mkBoard fun i =>
      if i = 22 then ⟨1, 2⟩ else if i = 19 then ⟨1, 13⟩
      else if i = 6 then ⟨2, 14⟩ else ⟨0, 0⟩
    bar := ⟨0, 1⟩, bearoff := ⟨0, 0⟩, currentPlayer := 2, availableMoves := [3] }

/-- The mover's home-board point indices: `19..24` for player 1, `1..6` for
player 2. -/
def homeRange (player : Int) : List Int :=
  if player = 1 then intRange 19 6 else intRange 1 6

/-- The mover's checkers sitting inside the home board. -/
def homeCount (gs : GameState) (player : Int) : Int :=
  ((homeRange player).map fun i => contrib (boardGet gs.board i) player).sum

/-- Spec reading of C4 / §4.1: a bear-off with a given die from `fromPoint`
is legal exactly when the mover's remaining checkers (those of the 15 not
yet borne off) all sit inside the 6-point home board with none on the bar,
and the die either exactly reaches the exit (25 for player 1, 0 for
player 2) or overshoots while no mover checker occupies a point further
from home than `fromPoint`. -/
def specBearOffLegal (gs : GameState) (fromPoint dieValue player : Int) : Prop :=
  (barGet gs.bar player = 0 ∧
    homeCount gs player + bearoffGet gs.bearoff player = 15) ∧
  ((if player = 1 then fromPoint + dieValue = 25 else fromPoint - dieValue = 0) ∨
    ((if player = 1 then 25 < fromPoint + dieValue else fromPoint - dieValue < 0) ∧
      ¬∃ p : Int, 1 ≤ p ∧ p ≤ 24 ∧
        (if player = 1 then p < fromPoint else fromPoint < p) ∧
        (boardGet gs.board p).player = player ∧ 0 < (boardGet gs.board p).count))

/- ===== constants of the AI module ===== -/

def PLAYER1_HOME_START_POINT : Int := 1
def PLAYER1_HOME_END_POINT : Int := 6
def HIGH_PRIORITY_HIT_BONUS : ℚ := 20000
def KEY_POINT_STACK_BONUS : ℚ := 1200
def KEY_POINT_SINGLE_BONUS : ℚ := 450
def KEY_POINT_OPPONENT_BLOCK_PENALTY : ℚ := 1400
def KEY_POINT_OPPONENT_BLOT_PENALTY : ℚ := 700
def NO_CONTACT_HOME_BOARD_BONUS : ℚ := 5000
def NO_CONTACT_HOME_BOARD_MOVE_BONUS : ℚ := 2000
def BEAROFF_BONUS : ℚ := 15000
def MAX_SEQUENCES_TO_SEARCH : Nat := 20
def CACHE_SIZE : Nat := 2000

/-- `KEY_POINT_PRIORITIES`: point / weight pairs, in source order. -/
def KEY_POINT_PRIORITIES : List (Int × ℚ) :=
  [(5, 1.0), (20, 0.9), (4, 0.7), (21, 0.65), (7, 0.6), (18, 0.55)]

/- ===== sequence scoring and strategic filters ===== -/

/-- `isHighPriorityHit(gameState, move, player)`: player 2 lands on a lone
player-1 checker on a point outside player 1's home range `1..6`. -/
def isHighPriorityHit (gs : GameState) (move : Move) (player : Int) : Bool :=
  if player ≠ 2 then false
  else
    match move.dest with
    | Dest.bearoff => false
    | Dest.point toP =>
      if toP < 1 ∨ 24 < toP then false
      else if PLAYER1_HOME_START_POINT ≤ toP ∧ toP ≤ PLAYER1_HOME_END_POINT then false
      else (boardGet gs.board toP).player = 1 ∧ (boardGet gs.board toP).count = 1

/-- `applySequenceAndScore(gameState, sequence, player)`: thread
`simulateMove` through the sequence (checking each move for a
high-priority hit against the state it is played from, and consuming the
played die from `availableMoves`), returning the final state and the
accumulated hit bonus. -/
def applySequenceAndScore (gs : GameState) (sequence : List Move) (player : Int) :
    GameState × ℚ :=
  sequence.foldl
    (fun acc move =>
      let hitScore :=
        if isHighPriorityHit acc.1 move player then acc.2 + HIGH_PRIORITY_HIT_BONUS
        else acc.2
      let nextState := simulateMove acc.1 move.src move.dest move.die player
      ({ nextState with availableMoves := nextState.availableMoves.erase move.die },
        hitScore))
    (cloneState gs, 0)

/-- `hasPlayer2BlotInPlayer1Home(gameState)`: a lone player-2 checker on a
point of the range `1..6`. -/
def hasPlayer2BlotInPlayer1Home (gs : GameState) : Bool :=
  (intRange 1 6).any fun point =>
    (boardGet gs.board point).player = 2 ∧ (boardGet gs.board point).count = 1

/-- `sequenceLeavesPlayer2HomeBoardBlot(gameState, sequence, player)`. -/
def sequenceLeavesPlayer2HomeBoardBlot (gs : GameState) (sequence : List Move)
    (player : Int) : Bool :=
  if player ≠ 2 ∨ sequence.isEmpty then false
  else hasPlayer2BlotInPlayer1Home (applySequenceAndScore gs sequence player).1

/-- `enforcePlayer2HomeBoardSafety`: drop blot-leaving sequences unless that
would drop them all. -/
def enforcePlayer2HomeBoardSafety (gs : GameState) (orderedSequences : List (List Move))
    (player : Int) : List (List Move) :=
  if player ≠ 2 then orderedSequences
  else
    let safeSequences := orderedSequences.filter fun sequence =>
      !sequenceLeavesPlayer2HomeBoardBlot gs sequence player
    if 0 < safeSequences.length then safeSequences else orderedSequences

/-- `sequenceExceedsStackLimit`: the resulting position stacks more than 3
player-2 checkers on point 2 or point 1. -/
def sequenceExceedsStackLimit (gs : GameState) (sequence : List Move) (player : Int) :
    Bool :=
  if player ≠ 2 ∨ sequence.isEmpty then false
  else
    let state := (applySequenceAndScore gs sequence player).1
    ((boardGet state.board 2).player = 2 ∧ 3 < (boardGet state.board 2).count) ∨
    ((boardGet state.board 1).player = 2 ∧ 3 < (boardGet state.board 1).count)

/-- `enforceStackLimitOnPoints2And1`. -/
def enforceStackLimitOnPoints2And1 (gs : GameState) (orderedSequences : List (List Move))
    (player : Int) : List (List Move) :=
  if player ≠ 2 then orderedSequences
  else
    let validSequences := orderedSequences.filter fun sequence =>
      !sequenceExceedsStackLimit gs sequence player
    if 0 < validSequences.length then validSequences else orderedSequences

/-- `countMadePointsInHomeBoard(gameState, player)`. -/
def countMadePointsInHomeBoard (gs : GameState) (player : Int) : Int :=
  if player ≠ 2 then 0
  else ((intRange 1 6).filter fun i =>
    (boardGet gs.board i).player = 2 ∧ 2 ≤ (boardGet gs.board i).count).length

/-- `sequenceUsesCheckersOutsideHomeBoard(sequence, player)`. -/
def sequenceUsesCheckersOutsideHomeBoard (sequence : List Move) (player : Int) : Bool :=
  if player ≠ 2 ∨ sequence.isEmpty then false
  else sequence.any fun move =>
    match move.src with
    | Src.bar => true
    | Src.point fp => 7 ≤ fp ∧ fp ≤ 24

/-- `sequenceExceedsDistributionLimit`: some point ends with more than 4
player-2 checkers. -/
def sequenceExceedsDistributionLimit (gs : GameState) (sequence : List Move)
    (player : Int) : Bool :=
  if player ≠ 2 ∨ sequence.isEmpty then false
  else
    let state := (applySequenceAndScore gs sequence player).1
    boardRange.any fun i =>
      (boardGet state.board i).player = 2 ∧ 4 < (boardGet state.board i).count

/-- `enforceDistribution`. -/
def enforceDistribution (gs : GameState) (orderedSequences : List (List Move))
    (player : Int) : List (List Move) :=
  if player ≠ 2 then orderedSequences
  else
    let validSequences := orderedSequences.filter fun sequence =>
      !sequenceExceedsDistributionLimit gs sequence player
    if 0 < validSequences.length then validSequences else orderedSequences

/-- `enforcePlayCheckersOutsideHomeBoard`: with more than 2 made home
points, prefer sequences that use a checker from outside the home board. -/
def enforcePlayCheckersOutsideHomeBoard (gs : GameState)
    (orderedSequences : List (List Move)) (player : Int) : List (List Move) :=
  if player ≠ 2 then orderedSequences
  else
    let madePoints := countMadePointsInHomeBoard gs player
    if 2 < madePoints then
      let validSequences := orderedSequences.filter fun sequence =>
        sequenceUsesCheckersOutsideHomeBoard sequence player
      if 0 < validSequences.length then validSequences else orderedSequences
    else orderedSequences

/- ===== evaluation features ===== -/

/-- `calculatePipCount(gameState, player)`: distance-weighted checker sum
plus 25 per bar checker. -/
def calculatePipCount (gs : GameState) (player : Int) : Int :=
  (if player = 1 then
    (boardRange.map fun i =>
      if (boardGet gs.board i).player = player then
        (boardGet gs.board i).count * (25 - i)
      else 0).sum
  else
    (boardRange.map fun i =>
      if (boardGet gs.board i).player = player then (boardGet gs.board i).count * i
      else 0).sum) +
  barGet gs.bar player * 25

/-- `calculateRaceCount(gameState, player)`. -/
def calculateRaceCount (gs : GameState) (player : Int) : Int :=
  calculatePipCount gs (opponentOf player) - calculatePipCount gs player

/-- Loop state of `calculateDistribution`. -/
structure DistState where
  occupiedPoints : Int
  gaps : Int
  lastOccupied : Int
deriving Repr

/-- `calculateDistribution(gameState, player)`: `occupied*2 - gaps`. -/
def calculateDistribution (gs : GameState) (player : Int) : Int :=
  let st := boardRange.foldl
    (fun st i =>
      if (boardGet gs.board i).player = player ∧ 0 < (boardGet gs.board i).count then
        { occupiedPoints := st.occupiedPoints + 1,
          gaps := if st.lastOccupied ≠ -1 ∧ 1 < i - st.lastOccupied then
              st.gaps + (i - st.lastOccupied - 1)
            else st.gaps,
          lastOccupied := i }
      else st)
    (⟨0, 0, -1⟩ : DistState)
  st.occupiedPoints * 2 - st.gaps

/-- `hasNoContactOnPlayer2Side(gameState)`: no player-1 checker on points
`1..12` and none on player 1's bar. -/
def hasNoContactOnPlayer2Side (gs : GameState) : Bool :=
  ((intRange 1 12).all fun i =>
    !((boardGet gs.board i).player = 1 ∧ 0 < (boardGet gs.board i).count)) &&
  !(0 < gs.bar.player1)

/-- A point is "made" by `player`: owned with 2 or more checkers. -/
def madeB (gs : GameState) (player : Int) (i : Int) : Bool :=
  (boardGet gs.board i).player = player ∧ 2 ≤ (boardGet gs.board i).count

/-- Loop state of `evaluatePrimes`. -/
structure PrimeState where
  maxPrimeLength : Nat
  primeCount : Nat
  currentPrime : Nat
  gaps : Nat
deriving Repr, DecidableEq

/-- One iteration of the `evaluatePrimes` scan. -/
def primeStep (st : PrimeState) (made : Bool) : PrimeState :=
  if made then
    let cur := st.currentPrime + 1
    { maxPrimeLength := max st.maxPrimeLength cur,
      primeCount := if cur = 1 then st.primeCount + 1 else st.primeCount,
      currentPrime := cur,
      gaps := st.gaps }
  else
    { st with
      gaps := if 0 < st.currentPrime then st.gaps + 1 else st.gaps,
      currentPrime := 0 }

/-- Result record of `evaluatePrimes`: `{ length, count, score }`. -/
structure PrimesResult where
  length : Nat
  count : Nat
  score : Int
deriving Repr, DecidableEq

/-- `evaluatePrimes(gameState, player)`: longest run of made points,
number of runs, and the quadratic score. -/
def evaluatePrimes (gs : GameState) (player : Int) : PrimesResult :=
  let st := (boardRange.map fun i => madeB gs player i).foldl primeStep ⟨0, 0, 0, 0⟩
  { length := st.maxPrimeLength, count := st.primeCount,
    score := (st.maxPrimeLength * st.maxPrimeLength * 10 : Int) +
      (st.primeCount * 5 : Int) - (st.gaps * 2 : Int) }

/-- Result record of `evaluateAnchors`. -/
structure AnchorsResult where
  count : Int
  score : Int
  positions : List Int
deriving Repr, DecidableEq

/-- `evaluateAnchors(gameState, player)`: made points inside the opponent's
home board, weighted toward the opponent's bear-off edge. -/
def evaluateAnchors (gs : GameState) (player : Int) : AnchorsResult :=
  if player = 1 then
    (intRange 1 6).foldl
      (fun acc i =>
        if (boardGet gs.board i).player = player ∧ 2 ≤ (boardGet gs.board i).count then
          { count := acc.count + 1,
            score := acc.score + (7 - i) * 5 + (boardGet gs.board i).count * 2,
            positions := acc.positions ++ [i] }
        else acc)
      ⟨0, 0, []⟩
  else
    (intRange 19 6).foldl
      (fun acc i =>
        if (boardGet gs.board i).player = player ∧ 2 ≤ (boardGet gs.board i).count then
          { count := acc.count + 1,
            score := acc.score + (i - 18) * 5 + (boardGet gs.board i).count * 2,
            positions := acc.positions ++ [i] }
        else acc)
      ⟨0, 0, []⟩

/-- `evaluateKeyPointControl(gameState)`: weighted bonuses/penalties on the
named key points, added once for the AI side. -/
def evaluateKeyPointControl (gs : GameState) : ℚ :=
  KEY_POINT_PRIORITIES.foldl
    (fun score pref =>
      let pointState := boardGet gs.board pref.1
      if pointState.player = 2 then
        if 2 ≤ pointState.count then score + KEY_POINT_STACK_BONUS * pref.2
        else if pointState.count = 1 then score + KEY_POINT_SINGLE_BONUS * pref.2
        else score
      else if pointState.player = 1 then
        if 2 ≤ pointState.count then score - KEY_POINT_OPPONENT_BLOCK_PENALTY * pref.2
        else if pointState.count = 1 then score - KEY_POINT_OPPONENT_BLOT_PENALTY * pref.2
        else score
      else score)
    0

/-- Result record of `evaluateBlotSafety`. -/
structure BlotsResult where
  count : Int
  score : Int
deriving Repr, DecidableEq

/-- `evaluateBlotSafety(gameState, player)`: scan every lone checker of
`player`; it "can be hit" when an opponent checker sits at signed distance
1..6 as the source computes it (`i - j` for owner 1, `j - i` for owner 2),
or the source's bar-entry clause fires (entry point 1 for opponent 1, 24
for opponent 2, distance `i - entry` for owner 1 and `entry - i` for
owner 2); penalties -30 (deep), -15 (other vulnerable), -5 (safe). -/
def evaluateBlotSafety (gs : GameState) (player : Int) : BlotsResult :=
  let opponent := opponentOf player
  boardRange.foldl
    (fun acc i =>
      if (boardGet gs.board i).player = player ∧ (boardGet gs.board i).count = 1 then
        let boardHit := boardRange.any fun j =>
          (boardGet gs.board j).player = opponent ∧ 0 < (boardGet gs.board j).count ∧
          0 < (if player = 1 then i - j else j - i) ∧
          (if player = 1 then i - j else j - i) ≤ 6
        let entryPoint : Int := if opponent = 1 then 1 else 24
        let barDistance : Int := if player = 1 then i - entryPoint else entryPoint - i
        let barHit := decide (0 < barGet gs.bar opponent) &&
          decide (1 ≤ barDistance ∧ barDistance ≤ 6)
        let canBeHit := boardHit || barHit
        if canBeHit then
          { count := acc.count + 1,
            score := acc.score +
              (if (player = 1 ∧ i ≤ 6) ∨ (player = 2 ∧ 19 ≤ i) then -30 else -15) }
        else { acc with score := acc.score - 5 }
      else acc)
    ⟨0, 0⟩

/-- Loop state of `evaluateHomeBoardStructure`. -/
structure HomeStructState where
  structureScore : Int
  madePoints : Int
  gaps : Int
  lastPoint : Int
deriving Repr

/-- `evaluateHomeBoardStructure(gameState, player)`. -/
def evaluateHomeBoardStructure (gs : GameState) (player : Int) : Int :=
  let step : HomeStructState → Int → HomeStructState := fun st i =>
    if (boardGet gs.board i).player = player ∧ 2 ≤ (boardGet gs.board i).count then
      { structureScore := st.structureScore +
          (if player = 1 then (i - 18) * 3 else (7 - i) * 3),
        madePoints := st.madePoints + 1,
        gaps := if st.lastPoint ≠ -1 ∧ 1 < i - st.lastPoint then
            st.gaps + (i - st.lastPoint - 1)
          else st.gaps,
        lastPoint := i }
    else st
  let st :=
    if player = 1 then (intRange 19 6).foldl step ⟨0, 0, 0, -1⟩
    else (intRange 1 6).foldl step ⟨0, 0, 0, -1⟩
  st.structureScore + st.madePoints * 5 - st.gaps * 3

/-- Loop state of `evaluateCrunching`'s counting pass. -/
structure CrunchState where
  total : Int
  occupied : Int
  maxStack : Int
  home : Int
  high : Int
  fullPoints : Int
deriving Repr

/-- `evaluateCrunching(gameState, player)`: concentration penalties, exact
rational arithmetic for the source's float divisions and `Math.pow`. -/
def evaluateCrunching (gs : GameState) (player : Int) : ℚ :=
  let st := boardRange.foldl
    (fun st i =>
      if (boardGet gs.board i).player = player ∧ 0 < (boardGet gs.board i).count then
        let c := (boardGet gs.board i).count
        let inHome := if player = 1 then 19 ≤ i ∧ i ≤ 24 else 1 ≤ i ∧ i ≤ 6
        let isHigh := if player = 1 then i ≤ 21 else 4 ≤ i
        { total := st.total + c, occupied := st.occupied + 1,
          maxStack := max st.maxStack c,
          home := if inHome then st.home + c else st.home,
          high := if inHome ∧ isHigh then st.high + c else st.high,
          fullPoints := if inHome ∧ 4 ≤ c then st.fullPoints + 1 else st.fullPoints }
      else st)
    (⟨0, 0, 0, 0, 0, 0⟩ : CrunchState)
  if allCheckersInHomeBoardForAI gs player then
    (if 2 < (st.home : ℚ) / (max st.occupied 1 : Int) then
        -(((st.home : ℚ) / (max st.occupied 1 : Int) - 2) ^ 2 * 40)
      else 0) +
    (if 4 ≤ st.maxStack then -(((st.maxStack : ℚ) - 3) ^ 2 * 30) else 0) +
    -((st.high : ℚ) * 8) +
    (if 0 < st.home ∧ st.occupied < 5 then
        if (5 : ℚ) / 2 < (st.home : ℚ) / (st.occupied : Int) then
          -(((st.home : ℚ) / (st.occupied : Int) - 5 / 2) ^ 2 * 50)
        else 0
      else 0) +
    (if 0 < st.fullPoints then -((st.fullPoints : ℚ) * 25) else 0)
  else
    (if 5 ≤ st.maxStack then -(((st.maxStack : ℚ) - 4) ^ 2 * 20) else 0) +
    (if 0 < st.total ∧ st.occupied < 7 then
        if (7 : ℚ) / 2 < (st.total : ℚ) / (st.occupied : Int) then
          -(((st.total : ℚ) / (st.occupied : Int) - 7 / 2) * 15)
        else 0
      else 0)

/-- `hashPosition(gameState)`: the source concatenates, dash-separated, the
decimal renderings of exactly this integer sequence (board 1..24 player and
count pairs, bar counts, tray counts). On well-formed states (non-negative
integers) the string determines the sequence, so the embedding keys the
cache by the sequence itself. -/
def hashPosition (gs : GameState) : List Int :=
  ((boardRange.map fun i => boardGet gs.board i).flatMap fun p => [p.player, p.count]) ++
  [gs.bar.player1, gs.bar.player2, gs.bearoff.player1, gs.bearoff.player2]

/- ===== phase detection ===== -/

/-- `isPrimingOrBlitzing(gameState, player)`: BLITZ when the opponent has a
bar checker, the side owns at least one run of made points, and its own
vulnerable-blot count is at most 2; PRIMING on a long enough prime;
otherwise CONTACT. -/
def isPrimingOrBlitzing (gs : GameState) (player : Int) : String :=
  let opponent := opponentOf player
  let primes := evaluatePrimes gs player
  let ownBlots := evaluateBlotSafety gs player
  let opponentOnBar := barGet gs.bar opponent
  if 1 ≤ opponentOnBar ∧ 1 ≤ primes.count ∧ ownBlots.count ≤ 2 then "BLITZ"
  else if 3 ≤ primes.length ∧ 2 ≤ primes.count then "PRIMING"
  else "CONTACT"

/-- `detectGamePhase(gameState)`: RACE, then BACKGAME (pip difference over
30), then PRIMING (both sides with a 3-long run of made points), then
BLITZ, else CONTACT.  (The source also precomputes anchor and blot-safety
values it never reads; they are omitted here.) -/
def detectGamePhase (gs : GameState) : String :=
  let player2Primes := evaluatePrimes gs 2
  let player1Primes := evaluatePrimes gs 1
  let player1InHome := allCheckersInHomeBoardForAI gs 1
  let player2InHome := allCheckersInHomeBoardForAI gs 2
  let player1Pips := calculatePipCount gs 1
  let player2Pips := calculatePipCount gs 2
  let pipDiff := (player1Pips - player2Pips).natAbs
  let isBlitzingByAI := isPrimingOrBlitzing gs 2 = "BLITZ"
  if player1InHome ∧ player2InHome then "RACE"
  else if 30 < pipDiff then "BACKGAME"
  else if 1 ≤ player2Primes.count ∧ 1 ≤ player1Primes.count ∧
      3 ≤ player2Primes.length ∧ 3 ≤ player1Primes.length then "PRIMING"
  else if isBlitzingByAI then "BLITZ"
  else "CONTACT"

/- ===== position evaluation ===== -/

/-- `calculateDynamicPipWeight(gameState, baseWeight, phase)`.  The source's
`[...Array(7)]` loop visits points `1..7`. -/
def calculateDynamicPipWeight (gs : GameState) (baseWeight : ℚ) (phase : String) : ℚ :=
  let playerPips := calculatePipCount gs 2
  let opponentPips := calculatePipCount gs 1
  let pipDifference := opponentPips - playerPips
  let playerHomeCheckers := gs.bearoff.player2 +
    ((intRange 1 7).map fun p =>
      if (boardGet gs.board p).player = 2 then (boardGet gs.board p).count else 0).sum
  let opponentHomeCheckers := gs.bearoff.player1 +
    ((intRange 1 7).map fun p =>
      if (boardGet gs.board p).player = 1 then (boardGet gs.board p).count else 0).sum
  if 10 ≤ opponentHomeCheckers then baseWeight * 2.5
  else if 40 < pipDifference then baseWeight * 2.0
  else if pipDifference < -50 ∧ phase ≠ "RACE" then baseWeight * 0.4
  else if pipDifference < -20 ∧ -50 ≤ pipDifference then baseWeight * 1.3
  else if 8 ≤ playerHomeCheckers ∧ 8 ≤ opponentHomeCheckers then baseWeight * 1.8
  else baseWeight

/-- The per-phase feature weight vector of `evaluatePosition`. -/
structure PhaseWeights where
  pipWeight : ℚ
  bearoffWeight : ℚ
  barWeight : ℚ
  homeWeight : ℚ
  blotWeight : ℚ
  primeWeight : ℚ
  anchorWeight : ℚ
  distributionWeight : ℚ
  raceWeight : ℚ
  crunchWeight : ℚ
deriving Repr

/-- The five weight assignments of `evaluatePosition`, keyed by phase. -/
def phaseWeights (gs : GameState) (phase : String) : PhaseWeights :=
  if phase = "RACE" then
    ⟨calculateDynamicPipWeight gs 0.5 phase, 100, 200, 3, 10, 2, 1, 10, 2, 200⟩
  else if phase = "BACKGAME" then
    ⟨calculateDynamicPipWeight gs 0.2 phase, 50, 150, 5, 15, 15, 20, 9, 0.5, 180⟩
  else if phase = "BLITZ" then
    ⟨calculateDynamicPipWeight gs 0.1 phase, 40, 250, 6, 35, 25, 10, 8, 0.5, 150⟩
  else if phase = "PRIMING" then
    ⟨calculateDynamicPipWeight gs 0.2 phase, 30, 100, 5, 10, 40, 25, 8, 0.3, 160⟩
  else
    ⟨calculateDynamicPipWeight gs 0.3 phase, 60, 120, 8, 20, 12, 15, 10, 1, 200⟩

/-- The non-terminal body of `evaluatePosition`: phase-aware weighted sum
of the twelve feature terms, in source order. -/
def evaluatePositionMain (gs : GameState) : ℚ :=
  let phase := detectGamePhase gs
  let w := phaseWeights gs phase
  let playerPips := calculatePipCount gs 2
  let opponentPips := calculatePipCount gs 1
  let score0 : ℚ := ((opponentPips - playerPips : Int) : ℚ) * w.pipWeight
  let score1 := score0 +
    (if phase = "RACE" then ((calculateRaceCount gs 2 : Int) : ℚ) * w.raceWeight else 0)
  let score2 := score1 + (gs.bearoff.player2 : ℚ) * w.bearoffWeight -
    (gs.bearoff.player1 : ℚ) * w.bearoffWeight
  let score3 := score2 - (gs.bar.player2 : ℚ) * w.barWeight +
    (gs.bar.player1 : ℚ) * w.barWeight
  let score4 := score3 +
    ((evaluateHomeBoardStructure gs 2 - evaluateHomeBoardStructure gs 1 : Int) : ℚ) *
      w.homeWeight
  let score5 := score4 +
    (((evaluateBlotSafety gs 2).score - (evaluateBlotSafety gs 1).score : Int) : ℚ) *
      w.blotWeight
  let score6 := score5 +
    (((evaluatePrimes gs 2).score - (evaluatePrimes gs 1).score : Int) : ℚ) * w.primeWeight
  let score7 := score6 +
    (((evaluateAnchors gs 2).score - (evaluateAnchors gs 1).score : Int) : ℚ) *
      w.anchorWeight
  let score8 := score7 +
    ((calculateDistribution gs 2 - calculateDistribution gs 1 : Int) : ℚ) *
      w.distributionWeight
  let score9 := score8 + (evaluateCrunching gs 2 - evaluateCrunching gs 1) * w.crunchWeight
  let score10 := score9 + evaluateKeyPointControl gs
  if hasNoContactOnPlayer2Side gs then
    let homeBoardCheckers := ((intRange 1 6).map fun i =>
      if (boardGet gs.board i).player = 2 ∧ 0 < (boardGet gs.board i).count then
        (boardGet gs.board i).count
      else 0).sum
    score10 + (homeBoardCheckers : ℚ) * (NO_CONTACT_HOME_BOARD_BONUS / 15)
  else score10

/-- `evaluatePosition(gameState)` with the cache removed (the "cache
disabled" evaluator): terminal shortcuts, then the weighted body. -/
def evaluatePosition (gs : GameState) : ℚ :=
  if gs.bearoff.player2 = 15 then 100000
  else if gs.bearoff.player1 = 15 then -100000
  else evaluatePositionMain gs

/- ===== transposition cache ===== -/

/-- `updateCache(hash, score)`: size-bounded FIFO append (a JavaScript `Map`
iterates in insertion order; the list head is the oldest entry). -/
def updateCache (cache : List (List Int × ℚ)) (hash : List Int) (score : ℚ) :
    List (List Int × ℚ) :=
  let cache := if CACHE_SIZE ≤ cache.length then cache.drop 1 else cache
  cache ++ [(hash, score)]

/-- `evaluatePosition(gameState)` with the transposition cache threaded
explicitly: probe, then terminal shortcuts (each updating the cache), then
the weighted body with its update, exactly as the source's call sites do. -/
def evaluatePositionCached (gs : GameState) (cache : List (List Int × ℚ)) :
    ℚ × List (List Int × ℚ) :=
  let positionHash := hashPosition gs
  match cache.lookup positionHash with
  | some score => (score, cache)
  | none =>
    if gs.bearoff.player2 = 15 then (100000, updateCache cache positionHash 100000)
    else if gs.bearoff.player1 = 15 then (-100000, updateCache cache positionHash (-100000))
    else
      let score := evaluatePositionMain gs
      (score, updateCache cache positionHash score)

/- ===== ordering bonuses ===== -/

/-- `calculateBackmostCheckerBonus(sequence, player)`. -/
def calculateBackmostCheckerBonus (sequence : List Move) (player : Int) : ℚ :=
  if player ≠ 2 then 0
  else sequence.foldl
    (fun bonus move =>
      match move.src with
      | Src.point fp =>
        if 18 ≤ fp ∧ fp ≤ 24 then bonus + ((fp - 17 : Int) : ℚ) * 50 else bonus
      | Src.bar => bonus)
    0

/-- `calculateNoContactHomeBoardBonus(gameState, sequence, player)`. -/
def calculateNoContactHomeBoardBonus (gs : GameState) (sequence : List Move)
    (player : Int) : ℚ :=
  if player ≠ 2 then 0
  else if !hasNoContactOnPlayer2Side gs then 0
  else sequence.foldl
    (fun bonus move =>
      match move.dest with
      | Dest.point toP =>
        if 1 ≤ toP ∧ toP ≤ 6 then
          match move.src with
          | Src.point fp =>
            if 6 < fp then
              bonus + NO_CONTACT_HOME_BOARD_MOVE_BONUS +
                ((fp - 6 : Int) : ℚ) * NO_CONTACT_HOME_BOARD_MOVE_BONUS / 10
            else bonus
          | Src.bar => bonus + NO_CONTACT_HOME_BOARD_MOVE_BONUS
        else bonus
      | Dest.bearoff => bonus)
    0

/-- `calculateBearoffBonus(gameState, sequence, player)`. -/
def calculateBearoffBonus (gs : GameState) (sequence : List Move) (player : Int) : ℚ :=
  if player ≠ 2 then 0
  else if !allCheckersInHomeBoardForAI gs player then 0
  else ((sequence.filter fun m => m.dest = Dest.bearoff).length : ℚ) * BEAROFF_BONUS

/-- `calculateBlitzBonus(gameState, sequence, player)`: hit bonuses are
checked against the original state, point-making against the resulting
state. -/
def calculateBlitzBonus (gs : GameState) (sequence : List Move) (player : Int) : ℚ :=
  if player ≠ 2 then 0
  else if detectGamePhase gs ≠ "BLITZ" then 0
  else
    let resultingState := (applySequenceAndScore gs sequence player).1
    let hitsBonus : ℚ := sequence.foldl
      (fun b m => if isHighPriorityHit gs m player then b + 5000 else b) 0
    let pointsBonus : ℚ := (intRange 1 6).foldl
      (fun b i =>
        if ¬madeB gs 2 i ∧ madeB resultingState 2 i then b + 3000 else b) 0
    hitsBonus + pointsBonus

/-- `calculatePrimingBonus(gameState, sequence, player)`. -/
def calculatePrimingBonus (gs : GameState) (sequence : List Move) (player : Int) : ℚ :=
  if player ≠ 2 then 0
  else if detectGamePhase gs ≠ "PRIMING" then 0
  else
    let resultingState := (applySequenceAndScore gs sequence player).1
    let beforePrimes := evaluatePrimes gs player
    let afterPrimes := evaluatePrimes resultingState player
    (if beforePrimes.length < afterPrimes.length then
        ((afterPrimes.length - beforePrimes.length : Nat) : ℚ) * 5000
      else 0) +
    (if beforePrimes.count < afterPrimes.count then
        ((afterPrimes.count - beforePrimes.count : Nat) : ℚ) * 2000
      else 0) +
    (if 6 ≤ afterPrimes.length then (10000 : ℚ) else 0)

/- ===== move ordering (the ORDER step) ===== -/

/-- The shallow score `orderMovesByEvaluation` attaches to one candidate
sequence: `-Infinity` (⊥) for the empty sequence, otherwise resulting
position evaluation plus the hit score and the five ordering bonuses. -/
def shallowSequenceScore (gs : GameState) (player : Int) (sequence : List Move) :
    WithBot ℚ :=
  if sequence.isEmpty then ⊥
  else
    let r := applySequenceAndScore gs sequence player
    ((evaluatePosition r.1 + r.2 + calculateBackmostCheckerBonus sequence player +
      calculateNoContactHomeBoardBonus gs sequence player +
      calculateBearoffBonus gs sequence player + calculateBlitzBonus gs sequence player +
      calculatePrimingBonus gs sequence player : ℚ) : WithBot ℚ)

/-- `orderMovesByEvaluation(sequences, gameState, player)`: score each
candidate, stable-sort by score descending (JavaScript `Array.sort` with
comparator `b.score - a.score` is stable), strip the scores. -/
def orderMovesByEvaluation (sequences : List (List Move)) (gs : GameState)
    (player : Int) : List (List Move) :=
  let scoredSequences := sequences.map fun sequence =>
    (sequence, shallowSequenceScore gs player sequence)
  (scoredSequences.mergeSort fun a b => decide (b.2 ≤ a.2)).map Prod.fst

/-- The GENERATE+truncate step of `getBestMove`: the generated sequences,
cut to the first `MAX_SEQUENCES_TO_SEARCH` in generation order when there
are more. -/
def sequencesToEvaluate (gs : GameState) : List (List Move) :=
  let moveSequences := generateAllMoveSequences gs gs.availableMoves 2
  if MAX_SEQUENCES_TO_SEARCH < moveSequences.length then
    moveSequences.take MAX_SEQUENCES_TO_SEARCH
  else moveSequences

/-- The ORDER step of `getBestMove` as the source performs it: order the
(already truncated) candidate list. -/
def orderedCandidates (gs : GameState) : List (List Move) :=
  orderMovesByEvaluation (sequencesToEvaluate gs) gs 2

/-- The C6 claim, stated at one input: whenever more sequences are generated
than the cap, the candidates kept for filtering and search are the highest
shallow-scoring ones — no discarded sequence strictly beats a kept one. -/
def keptAreHighestScoring (gs : GameState) : Prop :=
  MAX_SEQUENCES_TO_SEARCH < (generateAllMoveSequences gs gs.availableMoves 2).length →
  ∀ s ∈ generateAllMoveSequences gs gs.availableMoves 2,
    s ∉ orderedCandidates gs →
    ∀ t ∈ orderedCandidates gs,
      shallowSequenceScore gs 2 s ≤ shallowSequenceScore gs 2 t

/-- The guarantees claimed for the four strategic filters, packaged as one
proposition: each filter removes only sequences violating its constraint,
returns its input unchanged when every candidate violates it, never returns
an empty list on a non-empty input, and the full pipeline (home-board
safety, then stack limit, then distribution, then play-outside-home, in the
order `getBestMove` composes them) keeps a non-empty candidate list. -/
def filterSpecHolds (gs : GameState) (player : Int) (L : List (List Move)) : Prop :=
  (∀ s ∈ L, s ∉ enforcePlayer2HomeBoardSafety gs L player →
      sequenceLeavesPlayer2HomeBoardBlot gs s player = true) ∧
  ((∀ s ∈ L, sequenceLeavesPlayer2HomeBoardBlot gs s player = true) →
      enforcePlayer2HomeBoardSafety gs L player = L) ∧
  enforcePlayer2HomeBoardSafety gs L player ≠ [] ∧
  (∀ s ∈ L, s ∉ enforceStackLimitOnPoints2And1 gs L player →
      sequenceExceedsStackLimit gs s player = true) ∧
  ((∀ s ∈ L, sequenceExceedsStackLimit gs s player = true) →
      enforceStackLimitOnPoints2And1 gs L player = L) ∧
  enforceStackLimitOnPoints2And1 gs L player ≠ [] ∧
  (∀ s ∈ L, s ∉ enforceDistribution gs L player →
      sequenceExceedsDistributionLimit gs s player = true) ∧
  ((∀ s ∈ L, sequenceExceedsDistributionLimit gs s player = true) →
      enforceDistribution gs L player = L) ∧
  enforceDistribution gs L player ≠ [] ∧
  (∀ s ∈ L, s ∉ enforcePlayCheckersOutsideHomeBoard gs L player →
      sequenceUsesCheckersOutsideHomeBoard s player = false) ∧
  ((∀ s ∈ L, sequenceUsesCheckersOutsideHomeBoard s player = false) →
      enforcePlayCheckersOutsideHomeBoard gs L player = L) ∧
  enforcePlayCheckersOutsideHomeBoard gs L player ≠ [] ∧
  enforcePlayCheckersOutsideHomeBoard gs
    (enforceDistribution gs
      (enforceStackLimitOnPoints2And1 gs
        (enforcePlayer2HomeBoardSafety gs L player) player) player) player ≠ []

/-- Spec-modelled blot reachability (the wording of the blot-safety claim):
some opponent checker can reach point `i` within one die roll. An opponent
board checker at `j` reaches `i` when the pip distance in the opponent's
travel direction is 1..6 (opponent 1 travels upward, so the distance is
`i - j`; opponent 2 travels downward, so it is `j - i`); an opponent checker
on the bar reaches `i` when `i` lies in that opponent's entry window
(points 1..6 for opponent 1, points 19..24 for opponent 2). -/
def specBlotReachable (gs : GameState) (player : Int) (i : Int) : Bool :=
  let opponent := opponentOf player
  (boardRange.any fun j =>
    (boardGet gs.board j).player = opponent ∧ 0 < (boardGet gs.board j).count ∧
    0 < (if opponent = 1 then i - j else j - i) ∧
    (if opponent = 1 then i - j else j - i) ≤ 6) ||
  (decide (0 < barGet gs.bar opponent) &&
    (if opponent = 1 then decide (1 ≤ i ∧ i ≤ 6) else decide (19 ≤ i ∧ i ≤ 24)))

/-- A checker-conserving position in which player 2 has a lone checker on
point 5; player 1 holds point 2 (a direct 3-shot at the blot) and also has
a checker on the bar, whose entry window 1..6 covers point 5. -/
def c9State : GameState :=
  ⟨mkBoard fun i =>
    if i = 5 then ⟨2, 1⟩ else if i = 6 then ⟨2, 5⟩ else if i = 13 then ⟨2, 4⟩
    else if i = 8 then ⟨2, 3⟩ else if i = 4 then ⟨2, 2⟩ else if i = 2 then ⟨1, 2⟩
    else if i = 17 then ⟨1, 5⟩ else if i = 19 then ⟨1, 5⟩ else if i = 24 then ⟨1, 2⟩
    else ⟨0, 0⟩,
  ⟨1, 0⟩, ⟨0, 0⟩, 2, []⟩

/-- Length of the leading all-`true` prefix of a boolean list. -/
def leadingTrue : List Bool → Nat
  | [] => 0
  | b :: t => if b then leadingTrue t + 1 else 0

/-- Length of the longest run of consecutive `true`s in a boolean list. -/
def maxRun : List Bool → Nat
  | [] => 0
  | b :: t => if b then max (leadingTrue t + 1) (maxRun t) else maxRun t

/-- The phase claim's wording: the player holds a run of at least 3
consecutive made points somewhere on the board. -/
def hasRunOfThree (gs : GameState) (player : Int) : Bool :=
  (intRange 1 22).any fun i =>
    madeB gs player i && madeB gs player (i + 1) && madeB gs player (i + 2)

/-- The phase claim's wording: the player holds at least one made point,
i.e. at least one run of made points (of length at least 1). -/
def hasMadePointB (gs : GameState) (player : Int) : Bool :=
  boardRange.any fun i => madeB gs player i

/-- The phase claim's classifier, transcribed from its words: RACE when both
sides' checkers are fully home (none on the bar, all 15 on home points or
borne off); otherwise BACKGAME when the absolute pip-count difference
exceeds 30; otherwise PRIMING when both sides hold a run of at least 3
consecutive made points; otherwise BLITZ when the evaluating side
(player 2) has an opponent checker on the bar, holds at least one run of
made points, and has at most 2 own vulnerable blots (as the blot-safety
feature counts them); otherwise CONTACT. -/
def specPhase (gs : GameState) : String :=
  if (barGet gs.bar 1 = 0 ∧ homeCount gs 1 + bearoffGet gs.bearoff 1 = 15) ∧
      (barGet gs.bar 2 = 0 ∧ homeCount gs 2 + bearoffGet gs.bearoff 2 = 15) then "RACE"
  else if 30 < |calculatePipCount gs 1 - calculatePipCount gs 2| then "BACKGAME"
  else if hasRunOfThree gs 2 = true ∧ hasRunOfThree gs 1 = true then "PRIMING"
  else if 1 ≤ barGet gs.bar 1 ∧ hasMadePointB gs 2 = true ∧
      (evaluateBlotSafety gs 2).count ≤ 2 then "BLITZ"
  else "CONTACT"

/-- Two states agree on everything the position evaluator reads: every
board point 1..24, the bar, and the bear-off trays (`currentPlayer` and
`availableMoves` are never read by the evaluator). -/
def BoardEq (gs gs' : GameState) : Prop :=
  (∀ i : Int, 1 ≤ i → i ≤ 24 → boardGet gs.board i = boardGet gs'.board i) ∧
  gs.bar = gs'.bar ∧ gs.bearoff = gs'.bearoff

/-- A cache is valid when every stored entry maps a position hash to the
cache-free evaluation of every state carrying that hash. Every cache the
engine can reach is of this shape: it starts empty and `updateCache` only
ever inserts `(hashPosition gs, evaluatePosition gs)` pairs. -/
def CacheValid (cache : List (List Int × ℚ)) : Prop :=
  ∀ e ∈ cache, ∀ gs : GameState, hashPosition gs = e.1 → evaluatePosition gs = e.2

/-- A mid-game position for player 2 on a 6-5 roll: four made walls on
8-11, a spare pair on 13, a lone runner on 24, and player 1 with a blot on
18. More than 20 sequences are generated, and the high-scoring hit
24/18*/13/8 lies beyond index 20 of the generation order. -/
def c6State : GameState :=
  ⟨mkBoard fun i =>
    if i = 8 then ⟨2, 3⟩ else if i = 9 then ⟨2, 3⟩ else if i = 10 then ⟨2, 3⟩
    else if i = 11 then ⟨2, 3⟩ else if i = 13 then ⟨2, 2⟩ else if i = 24 then ⟨2, 1⟩
    else if i = 18 then ⟨1, 1⟩ else if i = 19 then ⟨1, 5⟩ else if i = 20 then ⟨1, 5⟩
    else if i = 22 then ⟨1, 4⟩ else ⟨0, 0⟩,
  ⟨0, 0⟩, ⟨0, 0⟩, 2, [6, 5]⟩

/-- The hitting sequence 24/18*, 13/8: generated, high-scoring, but past
the truncation cap in generation order. -/
def c6s : List Move := [⟨Src.point 24, Dest.point 18, 6⟩, ⟨Src.point 13, Dest.point 8, 5⟩]

/-- A kept sequence (8/2, 8/3) from the first 20 in generation order. -/
def c6t : List Move := [⟨Src.point 8, Dest.point 2, 6⟩, ⟨Src.point 8, Dest.point 3, 5⟩]

/- ===================== end of definitions (part I) ===================== -/

/- ===================== basic lemmas ===================== -/

theorem mem_intRange {p a : Int} {n : Nat} : p ∈ intRange a n ↔ a ≤ p ∧ p < a + n := by
  induction n generalizing a with
  | zero => simp [intRange]
  | succ k ih =>
    simp only [intRange, List.mem_cons, ih]
    omega

theorem nodup_intRange {a : Int} {n : Nat} : (intRange a n).Nodup := by
  induction n generalizing a with
  | zero => simp [intRange]
  | succ k ih =>
    simp only [intRange, List.nodup_cons, mem_intRange]
    exact ⟨by omega, ih⟩

theorem mem_boardRange {p : Int} : p ∈ boardRange ↔ 1 ≤ p ∧ p ≤ 24 := by
  rw [boardRange, mem_intRange]; omega

theorem length_boardSet (b : List PointState) (i : Int) (p : PointState) :
    (boardSet b i p).length = b.length := List.length_set b i.toNat p

theorem boardGet_boardSet_self {b : List PointState} {i : Int}
    (h : i.toNat < b.length) (p : PointState) : boardGet (boardSet b i p) i = p := by
  simp [boardGet, boardSet, List.getD_eq_getElem?_getD, List.getElem?_set_self h]

theorem boardGet_boardSet_ne {b : List PointState} {i j : Int}
    (h : i.toNat ≠ j.toNat) (p : PointState) : boardGet (boardSet b i p) j = boardGet b j := by
  simp [boardGet, boardSet, List.getD_eq_getElem?_getD, List.getElem?_set_ne h]

theorem barGet_barSet_self (b : BarState) (pl v : Int) :
    barGet (barSet b pl v) pl = v := by
  unfold barGet barSet; split <;> simp

theorem barGet_barSet_other (b : BarState) {pl q : Int} (h : pl ≠ q)
    (hpl : pl = 1 ∨ pl = 2) (hq : q = 1 ∨ q = 2) (v : Int) :
    barGet (barSet b pl v) q = barGet b q := by
  rcases hpl with rfl | rfl <;> rcases hq with rfl | rfl <;>
    simp_all [barGet, barSet]

theorem bearoffGet_bearoffSet_self (b : BearoffState) (pl v : Int) :
    bearoffGet (bearoffSet b pl v) pl = v := by
  unfold bearoffGet bearoffSet; split <;> simp

theorem bearoffGet_bearoffSet_other (b : BearoffState) {pl q : Int} (h : pl ≠ q)
    (hpl : pl = 1 ∨ pl = 2) (hq : q = 1 ∨ q = 2) (v : Int) :
    bearoffGet (bearoffSet b pl v) q = bearoffGet b q := by
  rcases hpl with rfl | rfl <;> rcases hq with rfl | rfl <;>
    simp_all [bearoffGet, bearoffSet]

theorem cloneState_eq (gs : GameState) : cloneState gs = gs := by
  have h : (fun p : PointState => ({ player := p.player, count := p.count } : PointState)) =
      fun p => p := rfl
  simp [cloneState, h]

theorem sum_map_update (l : List Int) (hl : l.Nodup) {j : Int} (hj : j ∈ l)
    (f g : Int → Int) (hoff : ∀ i ∈ l, i ≠ j → g i = f i) :
    (l.map g).sum = (l.map f).sum + g j - f j := by
  induction l with
  | nil => cases hj
  | cons a t ih =>
    have hnd := List.nodup_cons.mp hl
    rcases List.mem_cons.mp hj with rfl | hjt
    · have heq : ∀ i ∈ t, g i = f i := fun i hi =>
        hoff i (List.mem_cons_of_mem _ hi) (by rintro rfl; exact hnd.1 hi)
      simp only [List.map_cons, List.sum_cons, List.map_congr_left heq]
      omega
    · have ha : a ≠ j := by rintro rfl; exact hnd.1 hjt
      have := ih hnd.2 hjt fun i hi hij => hoff i (List.mem_cons_of_mem _ hi) hij
      simp only [List.map_cons, List.sum_cons, this,
        hoff a (List.mem_cons_self a t) ha]
      omega

theorem boardCount_boardSet {b : List PointState} (hlen : b.length = 25) {j : Int}
    (hj : 1 ≤ j ∧ j ≤ 24) (p : PointState) (pl : Int) :
    boardCount (boardSet b j p) pl =
      boardCount b pl + contrib p pl - contrib (boardGet b j) pl := by
  unfold boardCount
  have hjmem : j ∈ boardRange := mem_boardRange.mpr hj
  have hoff : ∀ i ∈ boardRange, i ≠ j →
      contrib (boardGet (boardSet b j p) i) pl = contrib (boardGet b i) pl := by
    intro i hi hij
    have hib := mem_boardRange.mp hi
    rw [boardGet_boardSet_ne (by omega) p]
  rw [sum_map_update boardRange nodup_intRange hjmem _ _ hoff,
    boardGet_boardSet_self (by omega) p]

theorem pointsWF_boardSet {b : List PointState} (hb : pointsWF b) {q : PointState}
    (hq : (q.player = 0 ∨ q.player = 1 ∨ q.player = 2) ∧ 0 ≤ q.count) (i : Int) :
    pointsWF (boardSet b i q) := by
  intro p hp
  rcases List.mem_or_eq_of_mem_set hp with h | rfl
  · exact hb p h
  · exact hq

theorem WF_point {gs : GameState} (hwf : WFState gs) {i : Int} (hi : 1 ≤ i ∧ i ≤ 24) :
    ((boardGet gs.board i).player = 0 ∨ (boardGet gs.board i).player = 1 ∨
      (boardGet gs.board i).player = 2) ∧ 0 ≤ (boardGet gs.board i).count := by
  obtain ⟨hlen, hpts, _⟩ := hwf
  have hlt : i.toNat < gs.board.length := by omega
  have hbg : boardGet gs.board i = gs.board[i.toNat] := by
    simp [boardGet, List.getD_eq_getElem?_getD, List.getElem?_eq_getElem hlt]
  rw [hbg]
  exact hpts _ (List.getElem_mem hlt)

/- ===================== oracle inversion lemmas ===================== -/

theorem getValidMovesForAI_bar_eq (gs : GameState) (avail : List Int) (player : Int) :
    getValidMovesForAI gs Src.bar avail player =
      if barGet gs.bar player = 0 then []
      else
        avail.filterMap fun mv =>
          let entryPoint := if player = 1 then mv else 25 - mv
          if canMoveToPointForAI gs entryPoint player then some ⟨Dest.point entryPoint, mv⟩
          else none := by
  unfold getValidMovesForAI
  rw [if_neg (by simp)]

theorem getValidMovesForAI_point_eq (gs : GameState) (fp : Int) (avail : List Int)
    (player : Int) :
    getValidMovesForAI gs (Src.point fp) avail player =
      if 0 < barGet gs.bar player then []
      else if (boardGet gs.board fp).player ≠ player ∨ (boardGet gs.board fp).count = 0 then []
      else
        avail.filterMap fun mv =>
          let toPoint := if player = 1 then fp + mv else fp - mv
          if (player = 1 ∧ 25 ≤ toPoint) ∨ (player = 2 ∧ toPoint ≤ 0) then
            if canBearOffForAI gs fp mv player then some ⟨Dest.bearoff, mv⟩ else none
          else if 1 ≤ toPoint ∧ toPoint ≤ 24 then
            if canMoveToPointForAI gs toPoint player then some ⟨Dest.point toPoint, mv⟩
            else none
          else none := by
  unfold getValidMovesForAI
  by_cases hbar : 0 < barGet gs.bar player
  · rw [if_pos (show 0 < barGet gs.bar player ∧ (Src.point fp : Src) ≠ Src.bar from
      ⟨hbar, by simp⟩), if_pos hbar]
  · rw [if_neg (show ¬(0 < barGet gs.bar player ∧ (Src.point fp : Src) ≠ Src.bar) from
      by simp [hbar]), if_neg hbar]


theorem canMoveToPoint_inversion {gs : GameState} {tp player : Int}
    (h : canMoveToPointForAI gs tp player = true) :
    (1 ≤ tp ∧ tp ≤ 24) ∧
    ((boardGet gs.board tp).player = 0 ∨ (boardGet gs.board tp).player = player ∨
      ((boardGet gs.board tp).player ≠ player ∧ (boardGet gs.board tp).count = 1)) := by
  simp only [canMoveToPointForAI] at h
  split_ifs at h with h1 h2 h3
  · exact ⟨by omega, by tauto⟩
  · exact ⟨by omega, Or.inr (Or.inr h3)⟩

theorem getValid_bar_inversion {gs : GameState} {avail : List Int} {player : Int}
    {mv : MoveTo} (h : mv ∈ getValidMovesForAI gs Src.bar avail player) :
    barGet gs.bar player ≠ 0 ∧ mv.die ∈ avail ∧
    mv.dest = Dest.point (if player = 1 then mv.die else 25 - mv.die) ∧
    canMoveToPointForAI gs (if player = 1 then mv.die else 25 - mv.die) player = true := by
  rw [getValidMovesForAI_bar_eq] at h
  by_cases h2 : barGet gs.bar player = 0
  · rw [if_pos h2] at h; simp at h
  · rw [if_neg h2] at h
    obtain ⟨x, hx, hfx⟩ := List.mem_filterMap.mp h
    dsimp only at hfx
    set e := if player = 1 then x else 25 - x with he
    split_ifs at hfx with h3
    · injection hfx with hmv
      subst hmv
      exact ⟨h2, hx, by rw [← he], by rw [← he]; exact h3⟩

theorem getValid_point_inversion {gs : GameState} {avail : List Int} {player fp : Int}
    {mv : MoveTo} (h : mv ∈ getValidMovesForAI gs (Src.point fp) avail player) :
    ¬(0 < barGet gs.bar player) ∧ (boardGet gs.board fp).player = player ∧
    (boardGet gs.board fp).count ≠ 0 ∧ mv.die ∈ avail ∧
    ((mv.dest = Dest.bearoff ∧
        ((player = 1 ∧ 25 ≤ fp + mv.die) ∨ (player = 2 ∧ fp - mv.die ≤ 0)) ∧
        canBearOffForAI gs fp mv.die player = true) ∨
      (mv.dest = Dest.point (if player = 1 then fp + mv.die else fp - mv.die) ∧
        1 ≤ (if player = 1 then fp + mv.die else fp - mv.die) ∧
        (if player = 1 then fp + mv.die else fp - mv.die) ≤ 24 ∧
        canMoveToPointForAI gs (if player = 1 then fp + mv.die else fp - mv.die) player
          = true)) := by
  rw [getValidMovesForAI_point_eq] at h
  by_cases hbar : 0 < barGet gs.bar player
  · rw [if_pos hbar] at h; simp at h
  · rw [if_neg hbar] at h
    by_cases h2 : (boardGet gs.board fp).player ≠ player ∨ (boardGet gs.board fp).count = 0
    · rw [if_pos h2] at h; simp at h
    · rw [if_neg h2] at h
      rcases not_or.mp h2 with ⟨howner, hcount⟩
      obtain ⟨x, hx, hfx⟩ := List.mem_filterMap.mp h
      dsimp only at hfx
      set tp := if player = 1 then fp + x else fp - x with htp
      split_ifs at hfx with hb1 hb2 hb3 hb4
      all_goals simp only [Option.some.injEq, reduceCtorEq] at hfx
      · subst hfx
        dsimp only
        refine ⟨hbar, not_not.mp howner, hcount, hx, Or.inl ⟨rfl, ?_, hb2⟩⟩
        rcases hb1 with ⟨hp1, hge⟩ | ⟨hp2, hle⟩
        · rw [htp, if_pos hp1] at hge
          exact Or.inl ⟨hp1, hge⟩
        · rw [htp, if_neg (by omega)] at hle
          exact Or.inr ⟨hp2, hle⟩
      · subst hfx
        dsimp only
        exact ⟨hbar, not_not.mp howner, hcount, hx,
          Or.inr ⟨by rw [← htp], by rw [← htp]; exact hb3.1, by rw [← htp]; exact hb3.2,
            by rw [← htp]; exact hb4⟩⟩

theorem getValid_die_mem {gs : GameState} {f : Src} {avail : List Int} {player : Int}
    {mv : MoveTo} (h : mv ∈ getValidMovesForAI gs f avail player) : mv.die ∈ avail := by
  cases f with
  | bar => exact (getValid_bar_inversion h).2.1
  | point fp => exact (getValid_point_inversion h).2.2.2.1

theorem source_bar_inversion {gs : GameState} {player : Int}
    (h : Src.bar ∈ sourcePointsOf gs player) : 0 < barGet gs.bar player := by
  unfold sourcePointsOf at h
  split_ifs at h with h1
  · exact h1
  · simp at h

theorem source_point_inversion {gs : GameState} {player fp : Int}
    (h : Src.point fp ∈ sourcePointsOf gs player) :
    ¬(0 < barGet gs.bar player) ∧ 1 ≤ fp ∧ fp ≤ 24 ∧
    (boardGet gs.board fp).player = player ∧ 0 < (boardGet gs.board fp).count := by
  unfold sourcePointsOf at h
  split_ifs at h with h1
  · simp at h
  · obtain ⟨x, hx, hfx⟩ := List.mem_map.mp h
    cases hfx
    have hmem := List.mem_filter.mp hx
    have hb := mem_boardRange.mp hmem.1
    have hc := of_decide_eq_true hmem.2
    exact ⟨h1, hb.1, hb.2, hc.1, hc.2⟩

/- ===================== simulateMove bookkeeping ===================== -/

theorem pointsWF_get {b : List PointState} (hw : pointsWF b) (hlen : b.length = 25)
    {i : Int} (hi : 1 ≤ i ∧ i ≤ 24) :
    ((boardGet b i).player = 0 ∨ (boardGet b i).player = 1 ∨ (boardGet b i).player = 2) ∧
    0 ≤ (boardGet b i).count := by
  have hlt : i.toNat < b.length := by omega
  have hbg : boardGet b i = b[i.toNat] := by
    simp [boardGet, List.getD_eq_getElem?_getD, List.getElem?_eq_getElem hlt]
  rw [hbg]
  exact hw _ (List.getElem_mem hlt)

theorem contrib_of_ne {p : PointState} {q : Int} (h : p.player ≠ q) : contrib p q = 0 := by
  simp [contrib, h]

theorem contrib_of_eq {p : PointState} {q : Int} (h : p.player = q) : contrib p q = p.count := by
  simp [contrib, h]

theorem contrib_decrement {p : PointState} {player q : Int} (hpl : p.player = player)
    (hq : q = 1 ∨ q = 2) :
    contrib (decrementPoint p) q = contrib p q - (if q = player then 1 else 0) := by
  unfold decrementPoint contrib
  split_ifs <;> simp_all <;> omega

theorem opponentOf_cases {player : Int} (hp : player = 1 ∨ player = 2) :
    (player = 1 ∧ opponentOf player = 2) ∨ (player = 2 ∧ opponentOf player = 1) := by
  rcases hp with rfl | rfl <;> simp [opponentOf]

theorem landOnPoint_spec {s : GameState} {toP player : Int}
    (hlen : s.board.length = 25) (hto : 1 ≤ toP ∧ toP ≤ 24)
    (hwb : pointsWF s.board) (hp : player = 1 ∨ player = 2)
    (hbar1 : 0 ≤ s.bar.player1) (hbar2 : 0 ≤ s.bar.player2)
    (hocc : (boardGet s.board toP).player = 0 ∨ (boardGet s.board toP).player = player ∨
      ((boardGet s.board toP).player ≠ player ∧ (boardGet s.board toP).count = 1)) :
    (landOnPoint s toP player).board.length = 25 ∧
    pointsWF (landOnPoint s toP player).board ∧
    (landOnPoint s toP player).bearoff = s.bearoff ∧
    0 ≤ (landOnPoint s toP player).bar.player1 ∧
    0 ≤ (landOnPoint s toP player).bar.player2 ∧
    boardCount (landOnPoint s toP player).board player +
      barGet (landOnPoint s toP player).bar player
      = boardCount s.board player + 1 + barGet s.bar player ∧
    ∀ q, (q = 1 ∨ q = 2) → q ≠ player →
      boardCount (landOnPoint s toP player).board q +
        barGet (landOnPoint s toP player).bar q
        = boardCount s.board q + barGet s.bar q := by
  have htoNat : toP.toNat < s.board.length := by omega
  have hwp := pointsWF_get hwb hlen hto
  by_cases hhit : (boardGet s.board toP).player ≠ 0 ∧ (boardGet s.board toP).player ≠ player
  · -- hit: the lone opposing checker goes to the bar, the point becomes the mover's
    have hPcnt : (boardGet s.board toP).count = 1 := by tauto
    have hPopp : (boardGet s.board toP).player = opponentOf player := by
      rcases opponentOf_cases hp with ⟨hp1, hop⟩ | ⟨hp2, hop⟩ <;> rw [hop] <;> omega
    have hs2get : boardGet (boardSet s.board toP ⟨0, 0⟩) toP = (⟨0, 0⟩ : PointState) :=
      boardGet_boardSet_self htoNat _
    have hr : landOnPoint s toP player =
        { s with bar := barSet s.bar (opponentOf player)
                  (barGet s.bar (opponentOf player) + 1),
                 board := boardSet (boardSet s.board toP ⟨0, 0⟩) toP ⟨player, 1⟩ } := by
      simp only [landOnPoint]
      rw [if_pos hhit]
      dsimp only
      rw [hs2get]
      dsimp only
      rw [if_neg (show ¬(0 : Int) = player by omega)]
    rw [hr]
    dsimp only
    have hlen2 : (boardSet s.board toP ⟨0, 0⟩).length = 25 := by
      rw [length_boardSet, hlen]
    have hbc : ∀ q : Int, boardCount (boardSet (boardSet s.board toP ⟨0, 0⟩) toP ⟨player, 1⟩) q
        = boardCount s.board q + contrib ⟨player, 1⟩ q - contrib (boardGet s.board toP) q := by
      intro q
      rw [boardCount_boardSet hlen2 hto _ q, boardCount_boardSet hlen hto _ q, hs2get]
      simp only [contrib]
      split_ifs <;> omega
    refine ⟨?_, ?_, rfl, ?_, ?_, ?_, ?_⟩
    · rw [length_boardSet, hlen2]
    · exact pointsWF_boardSet (pointsWF_boardSet hwb (by simp) toP) (by simp; omega) toP
    · rcases opponentOf_cases hp with ⟨hp1, hop⟩ | ⟨hp2, hop⟩ <;> rw [hop] <;>
        simp [barSet, barGet] <;> omega
    · rcases opponentOf_cases hp with ⟨hp1, hop⟩ | ⟨hp2, hop⟩ <;> rw [hop] <;>
        simp [barSet, barGet] <;> omega
    · have h1 := hbc player
      have h2 : contrib (⟨player, 1⟩ : PointState) player = 1 := by simp [contrib]
      have h3 : contrib (boardGet s.board toP) player = 0 :=
        contrib_of_ne (by omega)
      have h4 : barGet (barSet s.bar (opponentOf player)
          (barGet s.bar (opponentOf player) + 1)) player = barGet s.bar player :=
        barGet_barSet_other _ (by rcases opponentOf_cases hp with ⟨_, hop⟩ | ⟨_, hop⟩ <;> omega)
          (by rcases opponentOf_cases hp with ⟨_, hop⟩ | ⟨_, hop⟩ <;> omega) hp _
      rw [h1, h2, h3, h4]
      omega
    · intro q hq hqne
      have hqopp : q = opponentOf player := by
        rcases opponentOf_cases hp with ⟨hp1, hop⟩ | ⟨hp2, hop⟩ <;> omega
      have h1 := hbc q
      have h2 : contrib (⟨player, 1⟩ : PointState) q = 0 := by
        simp [contrib]; omega
      have h3 : contrib (boardGet s.board toP) q = (boardGet s.board toP).count :=
        contrib_of_eq (by omega)
      have h4 : barGet (barSet s.bar (opponentOf player)
          (barGet s.bar (opponentOf player) + 1)) q
          = barGet s.bar (opponentOf player) + 1 := by
        rw [← hqopp]; exact barGet_barSet_self _ _ _
      rw [h1, h2, h3, h4, ← hqopp, hPcnt]
      omega
  · -- no hit: the destination is empty or already the mover's
    have hnp : (boardGet s.board toP).player = 0 ∨ (boardGet s.board toP).player = player := by
      tauto
    by_cases hown : (boardGet s.board toP).player = player
    · have hr : landOnPoint s toP player =
          { s with board :=
              boardSet s.board toP ⟨player, (boardGet s.board toP).count + 1⟩ } := by
        simp only [landOnPoint]
        rw [if_neg hhit]
        rw [if_pos hown]
      rw [hr]
      dsimp only
      refine ⟨by rw [length_boardSet, hlen], ?_, rfl, hbar1, hbar2, ?_, ?_⟩
      · exact pointsWF_boardSet hwb (by simp; omega) toP
      · rw [boardCount_boardSet hlen hto _ player, contrib_of_eq (by simp),
          contrib_of_eq hown]
        simp
        omega
      · intro q hq hqne
        rw [boardCount_boardSet hlen hto _ q, contrib_of_ne (by simp; omega),
          contrib_of_ne (by omega)]
        omega
    · have hzero : (boardGet s.board toP).player = 0 := by tauto
      have hr : landOnPoint s toP player =
          { s with board := boardSet s.board toP ⟨player, 1⟩ } := by
        simp only [landOnPoint]
        rw [if_neg hhit]
        rw [if_neg hown]
      rw [hr]
      dsimp only
      refine ⟨by rw [length_boardSet, hlen], ?_, rfl, hbar1, hbar2, ?_, ?_⟩
      · exact pointsWF_boardSet hwb (by simp; omega) toP
      · rw [boardCount_boardSet hlen hto _ player, contrib_of_eq (by simp),
          contrib_of_ne (by omega)]
        simp
        try omega
      · intro q hq hqne
        rw [boardCount_boardSet hlen hto _ q, contrib_of_ne (by simp; omega),
          contrib_of_ne (by omega)]
        omega

theorem simulateMove_bar_point (gs : GameState) (toP die player : Int) :
    simulateMove gs Src.bar (Dest.point toP) die player =
      landOnPoint { gs with bar := barSet gs.bar player (barGet gs.bar player - 1) }
        toP player := by
  unfold simulateMove
  rw [cloneState_eq]

theorem simulateMove_point_bearoff (gs : GameState) (fp die player : Int) :
    simulateMove gs (Src.point fp) Dest.bearoff die player =
      { gs with
        board := boardSet gs.board fp (decrementPoint (boardGet gs.board fp)),
        bearoff := bearoffSet gs.bearoff player (bearoffGet gs.bearoff player + 1) } := by
  unfold simulateMove
  rw [cloneState_eq]

theorem simulateMove_point_point (gs : GameState) (fp toP die player : Int) :
    simulateMove gs (Src.point fp) (Dest.point toP) die player =
      landOnPoint
        { gs with board := boardSet gs.board fp (decrementPoint (boardGet gs.board fp)) }
        toP player := by
  unfold simulateMove
  rw [cloneState_eq]

theorem simulateMove_step {gs : GameState} {f : Src} {mv : MoveTo} {avail : List Int}
    {player : Int} (hwf : WFState gs) (hp : player = 1 ∨ player = 2)
    (hf : f ∈ sourcePointsOf gs player)
    (hmv : mv ∈ getValidMovesForAI gs f avail player) :
    WFState (simulateMove gs f mv.dest mv.die player) ∧
    ∀ q, (q = 1 ∨ q = 2) →
      checkerTotal (simulateMove gs f mv.dest mv.die player) q = checkerTotal gs q := by
  obtain ⟨hlen, hwb, hb1, hb2, ho1, ho2⟩ := hwf
  cases f with
  | bar =>
    obtain ⟨hbar0, hdieMem, hdest, hcan⟩ := getValid_bar_inversion hmv
    have hbarpos : 0 < barGet gs.bar player := source_bar_inversion hf
    obtain ⟨hto, hocc⟩ := canMoveToPoint_inversion hcan
    rw [hdest, simulateMove_bar_point]
    have hs1b1 : 0 ≤ ({ gs with
        bar := barSet gs.bar player (barGet gs.bar player - 1) } : GameState).bar.player1 := by
      rcases hp with rfl | rfl <;> simp_all [barSet, barGet] <;> omega
    have hs1b2 : 0 ≤ ({ gs with
        bar := barSet gs.bar player (barGet gs.bar player - 1) } : GameState).bar.player2 := by
      rcases hp with rfl | rfl <;> simp_all [barSet, barGet] <;> omega
    obtain ⟨L1, L2, L3, L4, L5, L6, L7⟩ :=
      landOnPoint_spec (s := { gs with
          bar := barSet gs.bar player (barGet gs.bar player - 1) })
        hlen hto hwb hp hs1b1 hs1b2 hocc
    have e1 : ({ gs with bar := barSet gs.bar player (barGet gs.bar player - 1) } :
        GameState).board = gs.board := rfl
    have e2 : ({ gs with bar := barSet gs.bar player (barGet gs.bar player - 1) } :
        GameState).bar = barSet gs.bar player (barGet gs.bar player - 1) := rfl
    have e3 : ({ gs with bar := barSet gs.bar player (barGet gs.bar player - 1) } :
        GameState).bearoff = gs.bearoff := rfl
    rw [e1, e2] at L6
    rw [e3] at L3
    constructor
    · exact ⟨L1, L2, L4, L5, by rw [L3]; exact ho1, by rw [L3]; exact ho2⟩
    · intro q hq
      simp only [checkerTotal, onBoardCount]
      rw [L3]
      by_cases hqp : q = player
      · subst hqp
        rw [barGet_barSet_self] at L6
        omega
      · have L7q := L7 q hq hqp
        rw [e1, e2, barGet_barSet_other _ (fun h => hqp h.symm) hp hq] at L7q
        omega
  | point fp =>
    obtain ⟨hbarle, howner, hcount, hdieMem, hcases⟩ := getValid_point_inversion hmv
    obtain ⟨-, hfp1, hfp2, -, hcntpos⟩ := source_point_inversion hf
    have hw := pointsWF_get hwb hlen ⟨hfp1, hfp2⟩
    have hdecwf : ((decrementPoint (boardGet gs.board fp)).player = 0 ∨
        (decrementPoint (boardGet gs.board fp)).player = 1 ∨
        (decrementPoint (boardGet gs.board fp)).player = 2) ∧
        0 ≤ (decrementPoint (boardGet gs.board fp)).count := by
      unfold decrementPoint
      split_ifs with h
      · simp
      · exact ⟨hw.1, by simp; omega⟩
    have hbcs1 : ∀ q, (q = 1 ∨ q = 2) →
        boardCount (boardSet gs.board fp (decrementPoint (boardGet gs.board fp))) q
          = boardCount gs.board q - (if q = player then 1 else 0) := by
      intro q hq
      rw [boardCount_boardSet hlen ⟨hfp1, hfp2⟩ _ q, contrib_decrement howner hq]
      omega
    rcases hcases with ⟨hdest, hbeyond, hbear⟩ | ⟨hdest, htp1, htp2, hcan⟩
    · -- bear-off move
      rw [hdest, simulateMove_point_bearoff]
      constructor
      · refine ⟨by rw [length_boardSet, hlen], pointsWF_boardSet hwb hdecwf fp, hb1, hb2,
          ?_, ?_⟩ <;>
          rcases hp with rfl | rfl <;> simp_all [bearoffSet, bearoffGet] <;> omega
      · intro q hq
        simp only [checkerTotal, onBoardCount]
        have hbc := hbcs1 q hq
        by_cases hqp : q = player
        · subst hqp
          rw [hbc, bearoffGet_bearoffSet_self]
          simp
          omega
        · rw [hbc, bearoffGet_bearoffSet_other _ (fun h => hqp h.symm) hp hq]
          simp [hqp]
    · -- normal point move
      rw [hdest, simulateMove_point_point]
      have hs1len : (boardSet gs.board fp (decrementPoint (boardGet gs.board fp))).length
          = 25 := by rw [length_boardSet, hlen]
      have hs1wb : pointsWF (boardSet gs.board fp (decrementPoint (boardGet gs.board fp))) :=
        pointsWF_boardSet hwb hdecwf fp
      have hocc1 : (boardGet (boardSet gs.board fp (decrementPoint (boardGet gs.board fp)))
            (if player = 1 then fp + mv.die else fp - mv.die)).player = 0 ∨
          (boardGet (boardSet gs.board fp (decrementPoint (boardGet gs.board fp)))
            (if player = 1 then fp + mv.die else fp - mv.die)).player = player ∨
          ((boardGet (boardSet gs.board fp (decrementPoint (boardGet gs.board fp)))
            (if player = 1 then fp + mv.die else fp - mv.die)).player ≠ player ∧
           (boardGet (boardSet gs.board fp (decrementPoint (boardGet gs.board fp)))
            (if player = 1 then fp + mv.die else fp - mv.die)).count = 1) := by
        by_cases heq : fp = if player = 1 then fp + mv.die else fp - mv.die
        · rw [← heq, boardGet_boardSet_self (by omega)]
          unfold decrementPoint
          split_ifs with h
          · simp
          · right; left; simpa using howner
        · rw [boardGet_boardSet_ne (by omega)]
          exact (canMoveToPoint_inversion hcan).2
      obtain ⟨L1, L2, L3, L4, L5, L6, L7⟩ :=
        landOnPoint_spec (s := { gs with
            board := boardSet gs.board fp (decrementPoint (boardGet gs.board fp)) })
          hs1len ⟨htp1, htp2⟩ hs1wb hp hb1 hb2 hocc1
      have e1 : ({ gs with
          board := boardSet gs.board fp (decrementPoint (boardGet gs.board fp)) } :
          GameState).board = boardSet gs.board fp (decrementPoint (boardGet gs.board fp)) :=
        rfl
      have e2 : ({ gs with
          board := boardSet gs.board fp (decrementPoint (boardGet gs.board fp)) } :
          GameState).bar = gs.bar := rfl
      have e3 : ({ gs with
          board := boardSet gs.board fp (decrementPoint (boardGet gs.board fp)) } :
          GameState).bearoff = gs.bearoff := rfl
      rw [e1, e2] at L6
      rw [e3] at L3
      constructor
      · exact ⟨L1, L2, L4, L5, by rw [L3]; exact ho1, by rw [L3]; exact ho2⟩
      · intro q hq
        simp only [checkerTotal, onBoardCount]
        rw [L3]
        have hbc := hbcs1 q hq
        by_cases hqp : q = player
        · subst hqp
          rw [hbc] at L6
          simp at L6
          omega
        · have L7q := L7 q hq hqp
          rw [e1, e2, hbc] at L7q
          simp [hqp] at L7q
          omega

/- ===================== generator lemmas ===================== -/

theorem applyMoves_nil (gs : GameState) (player : Int) : applyMoves gs [] player = gs := rfl

theorem applyMoves_cons (gs : GameState) (m : Move) (moves : List Move) (player : Int) :
    applyMoves gs (m :: moves) player =
      applyMoves (simulateMove gs m.src m.dest m.die player) moves player := rfl

theorem remainingDice_nil (avail : List Int) : remainingDice avail [] = avail :=
  rfl

theorem remainingDice_cons (avail : List Int) (m : Move) (moves : List Move) :
    remainingDice avail (m :: moves) = remainingDice (avail.erase m.die) moves := rfl

theorem genSeqs_zero (player : Int) (gs : GameState) (avail : List Int) :
    genSeqs player 0 gs avail = [[]] := rfl

theorem genSeqs_succ (player : Int) (fuel : Nat) (gs : GameState) (avail : List Int) :
    genSeqs player (fuel + 1) gs avail =
      if avail.isEmpty then [[]]
      else
        if ((sourcePointsOf gs player).flatMap fun source =>
            (getValidMovesForAI gs source avail player).flatMap fun mv =>
              (genSeqs player fuel (simulateMove gs source mv.dest mv.die player)
                (avail.erase mv.die)).map fun seq =>
                  (⟨source, mv.dest, mv.die⟩ : Move) :: seq).isEmpty then [[]]
        else
          (sourcePointsOf gs player).flatMap fun source =>
            (getValidMovesForAI gs source avail player).flatMap fun mv =>
              (genSeqs player fuel (simulateMove gs source mv.dest mv.die player)
                (avail.erase mv.die)).map fun seq =>
                  (⟨source, mv.dest, mv.die⟩ : Move) :: seq := rfl

theorem genSeqs_ne_nil (player : Int) (fuel : Nat) (gs : GameState) (avail : List Int) :
    genSeqs player fuel gs avail ≠ [] := by
  cases fuel with
  | zero => simp [genSeqs_zero]
  | succ fuel =>
    rw [genSeqs_succ]
    split_ifs with h1 h2
    · simp
    · simp
    · simpa using h2

theorem genSeqs_mem_inversion {player : Int} {fuel : Nat} {gs : GameState}
    {avail : List Int} {seq : List Move} (h : seq ∈ genSeqs player (fuel + 1) gs avail) :
    seq = [] ∨ ∃ source mv rest, seq = (⟨source, mv.dest, mv.die⟩ : Move) :: rest ∧
      source ∈ sourcePointsOf gs player ∧
      mv ∈ getValidMovesForAI gs source avail player ∧
      rest ∈ genSeqs player fuel (simulateMove gs source mv.dest mv.die player)
        (avail.erase mv.die) := by
  rw [genSeqs_succ] at h
  split_ifs at h with h1 h2
  · left; simpa using h
  · left; simpa using h
  · right
    obtain ⟨source, hsource, hin⟩ := List.mem_flatMap.mp h
    obtain ⟨mv, hmv, hin2⟩ := List.mem_flatMap.mp hin
    obtain ⟨rest, hrest, hseq⟩ := List.mem_map.mp hin2
    exact ⟨source, mv, rest, hseq.symm, hsource, hmv, hrest⟩

theorem genSeqs_prefix_invariant {player : Int} (hp : player = 1 ∨ player = 2) :
    ∀ (fuel : Nat) (gs : GameState) (avail : List Int) (seq : List Move),
      WFState gs → Conserved gs → seq ∈ genSeqs player fuel gs avail →
      ∀ n : Nat, WFState (applyMoves gs (seq.take n) player) ∧
        Conserved (applyMoves gs (seq.take n) player) := by
  intro fuel
  induction fuel with
  | zero =>
    intro gs avail seq hwf hc h n
    rw [genSeqs_zero] at h
    simp at h
    subst h
    simpa [applyMoves] using ⟨hwf, hc⟩
  | succ fuel ih =>
    intro gs avail seq hwf hc h n
    rcases genSeqs_mem_inversion h with rfl | ⟨source, mv, rest, rfl, hsrc, hmv, hrest⟩
    · simpa [applyMoves] using ⟨hwf, hc⟩
    · cases n with
      | zero => simpa [applyMoves] using ⟨hwf, hc⟩
      | succ k =>
        have hstep := simulateMove_step hwf hp hsrc hmv
        have hc' : Conserved (simulateMove gs source mv.dest mv.die player) :=
          ⟨by rw [hstep.2 1 (Or.inl rfl)]; exact hc.1,
           by rw [hstep.2 2 (Or.inr rfl)]; exact hc.2⟩
        have hnext := ih (simulateMove gs source mv.dest mv.die player)
          (avail.erase mv.die) rest hstep.1 hc' hrest k
        simpa [List.take_succ_cons, applyMoves_cons] using hnext

/- ===================== maximality helpers ===================== -/

theorem getValid_nil_avail (gs : GameState) (f : Src) (player : Int) :
    getValidMovesForAI gs f [] player = [] := by
  cases f with
  | bar =>
    rw [getValidMovesForAI_bar_eq]
    split_ifs <;> simp
  | point fp =>
    rw [getValidMovesForAI_point_eq]
    split_ifs <;> simp

theorem barGet_nonneg {gs : GameState} (hwf : WFState gs) (player : Int) :
    0 ≤ barGet gs.bar player := by
  obtain ⟨-, -, h1, h2, -, -⟩ := hwf
  unfold barGet
  split <;> assumption

theorem valid_extend_allSources {gs : GameState} {avail : List Int} {player : Int}
    (hwf : WFState gs)
    (hsrc : ∀ source ∈ sourcePointsOf gs player,
      getValidMovesForAI gs source avail player = []) :
    ∀ f ∈ allSources, getValidMovesForAI gs f avail player = [] := by
  intro f hf
  by_cases hbar : 0 < barGet gs.bar player
  · cases f with
    | bar =>
      apply hsrc
      unfold sourcePointsOf
      rw [if_pos hbar]
      simp
    | point i =>
      rw [getValidMovesForAI_point_eq, if_pos hbar]
  · cases f with
    | bar =>
      have h0 : barGet gs.bar player = 0 := le_antisymm (by omega) (barGet_nonneg hwf player)
      rw [getValidMovesForAI_bar_eq, if_pos h0]
    | point i =>
      have hi : 1 ≤ i ∧ i ≤ 24 := by
        rcases List.mem_cons.mp hf with h | h
        · cases h
        · obtain ⟨x, hx, hfx⟩ := List.mem_map.mp h
          cases hfx
          exact mem_boardRange.mp hx
      by_cases hown : (boardGet gs.board i).player = player ∧ 0 < (boardGet gs.board i).count
      · apply hsrc
        unfold sourcePointsOf
        rw [if_neg hbar]
        exact List.mem_map.mpr ⟨i, List.mem_filter.mpr ⟨mem_boardRange.mpr hi,
          decide_eq_true hown⟩, rfl⟩
      · rw [getValidMovesForAI_point_eq, if_neg hbar]
        have hc := (pointsWF_get hwf.2.1 hwf.1 hi).2
        rw [if_pos (by omega)]

theorem sourcePointsOf_subset_allSources (gs : GameState) (player : Int) :
    ∀ f ∈ sourcePointsOf gs player, f ∈ allSources := by
  intro f hf
  unfold sourcePointsOf at hf
  split_ifs at hf with h1
  · simp at hf
    subst hf
    exact List.mem_cons_self _ _
  · obtain ⟨x, hx, hfx⟩ := List.mem_map.mp hf
    subst hfx
    exact List.mem_cons_of_mem _ (List.mem_map.mpr ⟨x, (List.mem_filter.mp hx).1, rfl⟩)

theorem genSeqs_nil_mem_inversion {player : Int} {fuel : Nat} {gs : GameState}
    {avail : List Int} (h : ([] : List Move) ∈ genSeqs player (fuel + 1) gs avail) :
    avail = [] ∨ ∀ source ∈ sourcePointsOf gs player,
      getValidMovesForAI gs source avail player = [] := by
  rw [genSeqs_succ] at h
  split_ifs at h with h1 h2
  · left
    exact List.isEmpty_iff.mp h1
  · right
    intro source hsource
    rw [List.isEmpty_iff] at h2
    rw [List.flatMap_eq_nil_iff] at h2
    have h3 := h2 source hsource
    rw [List.flatMap_eq_nil_iff] at h3
    by_cases hn : getValidMovesForAI gs source avail player = []
    · exact hn
    · exfalso
      obtain ⟨mv, hmv⟩ := List.exists_mem_of_ne_nil _ hn
      have := h3 mv hmv
      rw [List.map_eq_nil_iff] at this
      exact genSeqs_ne_nil _ _ _ _ this
  · exfalso
    obtain ⟨source, hsource, hin⟩ := List.mem_flatMap.mp h
    obtain ⟨mv, hmv, hin2⟩ := List.mem_flatMap.mp hin
    obtain ⟨rest, hrest, hseq⟩ := List.mem_map.mp hin2
    cases hseq

theorem genSeqs_maximal {player : Int} (hp : player = 1 ∨ player = 2) :
    ∀ (fuel : Nat) (gs : GameState) (avail : List Int), avail.length ≤ fuel →
      WFState gs →
      ∀ seq ∈ genSeqs player fuel gs avail, ∀ f ∈ allSources,
        getValidMovesForAI (applyMoves gs seq player) f (remainingDice avail seq) player
          = [] := by
  intro fuel
  induction fuel with
  | zero =>
    intro gs avail hle hwf seq hseq f hf
    rw [genSeqs_zero] at hseq
    simp at hseq
    subst hseq
    have hav : avail = [] := by
      cases avail with
      | nil => rfl
      | cons a t => simp at hle
    subst hav
    rw [applyMoves_nil, remainingDice_nil]
    exact getValid_nil_avail gs f player
  | succ fuel ih =>
    intro gs avail hle hwf seq hseq f hf
    rcases genSeqs_mem_inversion hseq with rfl | ⟨source, mv, rest, rfl, hsrc, hmv, hrest⟩
    · rw [applyMoves_nil, remainingDice_nil]
      rcases genSeqs_nil_mem_inversion hseq with rfl | hall
      · exact getValid_nil_avail gs f player
      · exact valid_extend_allSources hwf hall f hf
    · have hdie : mv.die ∈ avail := getValid_die_mem hmv
      have herase : (avail.erase mv.die).length ≤ fuel := by
        rw [List.length_erase_of_mem hdie]
        omega
      have hwf' : WFState (simulateMove gs source mv.dest mv.die player) :=
        (simulateMove_step hwf hp hsrc hmv).1
      have := ih (simulateMove gs source mv.dest mv.die player) (avail.erase mv.die)
        herase hwf' rest hrest f hf
      simpa [applyMoves_cons, remainingDice_cons] using this

theorem genSeqs_forced_pass {gs : GameState} {avail : List Int} {player : Int}
    (h : ∀ f ∈ allSources, getValidMovesForAI gs f avail player = []) :
    generateAllMoveSequences gs avail player = [[]] := by
  unfold generateAllMoveSequences
  cases hn : avail.length with
  | zero => rw [genSeqs_zero]
  | succ k =>
    rw [genSeqs_succ]
    split_ifs with h1 h2
    · rfl
    · rfl
    · exfalso
      apply h2
      rw [List.isEmpty_iff, List.flatMap_eq_nil_iff]
      intro source hsource
      rw [h source (sourcePointsOf_subset_allSources gs player source hsource)]
      rfl

/- ===================== claims C1, C2, C3 ===================== -/

/-- C1: for every well-formed game state satisfying the checker-conservation
invariant and every single move produced by the oracle and applied by
`simulateMove` (normal move, bar entry, or bear-off, hits included), the
resulting state again satisfies, for each player, on-board + bar + borne-off
= 15; consequently every intermediate state reached while applying any
sequence produced by `generateAllMoveSequences` satisfies it. -/
theorem C1_simulator_preserves_conservation (gs : GameState) (player : Int)
    (hwf : WFState gs) (hc : Conserved gs) (hp : player = 1 ∨ player = 2) :
    (∀ (f : Src) (avail : List Int) (mv : MoveTo), f ∈ sourcePointsOf gs player →
        mv ∈ getValidMovesForAI gs f avail player →
        Conserved (simulateMove gs f mv.dest mv.die player)) ∧
    (∀ (avail : List Int), ∀ seq ∈ generateAllMoveSequences gs avail player,
        ∀ n : Nat, Conserved (applyMoves gs (seq.take n) player)) := by
  constructor
  · intro f avail mv hf hmv
    have hstep := simulateMove_step hwf hp hf hmv
    exact ⟨by rw [hstep.2 1 (Or.inl rfl)]; exact hc.1,
           by rw [hstep.2 2 (Or.inr rfl)]; exact hc.2⟩
  · intro avail seq hseq n
    exact (genSeqs_prefix_invariant hp avail.length gs avail seq hwf hc hseq n).2

/-- Witness for C1: the opening position is conserved after player 2's full
3-1 sequence 6/3, 3/2 taken from the generator's output. -/
theorem C1_simulator_preserves_conservation_witness :
    Conserved (applyMoves startState
      ([⟨Src.point 6, Dest.point 3, 3⟩, ⟨Src.point 3, Dest.point 2, 1⟩].take 2) 2) :=
  (C1_simulator_preserves_conservation startState 2 (by decide) (by decide)
    (Or.inr rfl)).2 [3, 1]
    [⟨Src.point 6, Dest.point 3, 3⟩, ⟨Src.point 3, Dest.point 2, 1⟩] (by decide) 2

/-- C2: every sequence returned by `generateAllMoveSequences` is maximal —
after applying its moves in order and erasing the used dice, no die left in
the pool has a legal move from any source (bar or board point) — and when
no die in the pool has any legal placement from any source the generator
returns exactly the singleton list containing the empty sequence (the
forced-pass outcome). -/
theorem C2_generator_maximal_and_forced_pass (gs : GameState) (avail : List Int)
    (player : Int) (hwf : WFState gs) (hp : player = 1 ∨ player = 2) :
    (∀ seq ∈ generateAllMoveSequences gs avail player, ∀ f ∈ allSources,
        getValidMovesForAI (applyMoves gs seq player) f (remainingDice avail seq) player
          = []) ∧
    ((∀ f ∈ allSources, getValidMovesForAI gs f avail player = []) →
        generateAllMoveSequences gs avail player = [[]]) := by
  constructor
  · intro seq hseq f hf
    exact genSeqs_maximal hp avail.length gs avail le_rfl hwf seq hseq f hf
  · exact genSeqs_forced_pass

/-- Witness for C2: with player 2 on the bar, a single die 3 and the 22-point
blocked, the generator returns exactly the forced-pass singleton. -/
theorem C2_generator_maximal_and_forced_pass_witness :
    generateAllMoveSequences blockedEntryState [3] 2 = [[]] :=
  (C2_generator_maximal_and_forced_pass blockedEntryState [3] 2 (by decide)
    (Or.inr rfl)).2 (by decide)

/-- C3: if the mover has a checker on the bar, the single-move oracle yields
no legal move from any board-point source, and every non-empty generated
sequence begins with a move whose source is the bar. -/
theorem C3_bar_priority (gs : GameState) (avail : List Int) (player : Int)
    (hbar : 0 < barGet gs.bar player) :
    (∀ i : Int, getValidMovesForAI gs (Src.point i) avail player = []) ∧
    (∀ seq ∈ generateAllMoveSequences gs avail player, ∀ m rest, seq = m :: rest →
        m.src = Src.bar) := by
  constructor
  · intro i
    rw [getValidMovesForAI_point_eq, if_pos hbar]
  · intro seq hseq m rest hcons
    unfold generateAllMoveSequences at hseq
    cases hn : avail.length with
    | zero =>
      rw [hn, genSeqs_zero] at hseq
      simp at hseq
      subst hseq
      cases hcons
    | succ k =>
      rw [hn] at hseq
      rcases genSeqs_mem_inversion hseq with rfl | ⟨source, mv, rest2, heq, hsrc, hmv, hrest⟩
      · cases hcons
      · have hbarsrc : source = Src.bar := by
          unfold sourcePointsOf at hsrc
          rw [if_pos hbar] at hsrc
          simpa using hsrc
        rw [hcons] at heq
        have := (List.cons.injEq _ _ _ _).mp heq
        rw [this.1, hbarsrc]

/-- Witness for C3: on the blocked-entry fixture the oracle rejects every
board-point source (point 6 shown), as the theorem asserts. -/
theorem C3_bar_priority_witness :
    getValidMovesForAI blockedEntryState (Src.point 6) [3] 2 = [] :=
  (C3_bar_priority blockedEntryState [3] 2 (by decide)).1 6

/- ===================== C4 helpers ===================== -/

theorem intRange_append (a : Int) (m n : Nat) :
    intRange a (m + n) = intRange a m ++ intRange (a + m) n := by
  induction m generalizing a with
  | zero => simp [intRange]
  | succ k ih =>
    have h1 : k + 1 + n = (k + n) + 1 := by omega
    rw [h1]
    simp only [intRange]
    rw [ih (a + 1)]
    have h2 : a + 1 + (k : Int) = a + ((k : Nat) + 1 : Nat) := by push_cast; ring
    rw [List.cons_append, h2]

theorem contrib_nonneg {b : List PointState} (hw : pointsWF b) (hlen : b.length = 25)
    {i : Int} (hi : 1 ≤ i ∧ i ≤ 24) (pl : Int) : 0 ≤ contrib (boardGet b i) pl := by
  have := (pointsWF_get hw hlen hi).2
  unfold contrib
  split <;> omega

theorem sum_contrib_zero_iff {b : List PointState} (hw : pointsWF b)
    (hlen : b.length = 25) (l : List Int) (hl : ∀ i ∈ l, 1 ≤ i ∧ i ≤ 24) (pl : Int) :
    ((l.map fun i => contrib (boardGet b i) pl).sum = 0 ↔
      ∀ i ∈ l, ¬((boardGet b i).player = pl ∧ 0 < (boardGet b i).count)) := by
  induction l with
  | nil => simp
  | cons a t ih =>
    have ha := hl a (List.mem_cons_self a t)
    have hat : ∀ i ∈ t, 1 ≤ i ∧ i ≤ 24 := fun i hi => hl i (List.mem_cons_of_mem _ hi)
    have hann : 0 ≤ contrib (boardGet b a) pl := contrib_nonneg hw hlen ha pl
    have htnn : 0 ≤ (t.map fun i => contrib (boardGet b i) pl).sum :=
      List.sum_nonneg fun x hx => by
        obtain ⟨i, hi, rfl⟩ := List.mem_map.mp hx
        exact contrib_nonneg hw hlen (hat i hi) pl
    have hcnt := (pointsWF_get hw hlen ha).2
    simp only [List.map_cons, List.sum_cons, List.mem_cons]
    constructor
    · intro h
      have hz1 : contrib (boardGet b a) pl = 0 := by omega
      have hz2 : (t.map fun i => contrib (boardGet b i) pl).sum = 0 := by omega
      intro i hi
      rcases hi with rfl | hi
      · intro ⟨hop, hcp⟩
        rw [contrib_of_eq hop] at hz1
        omega
      · exact (ih hat).mp hz2 i hi
    · intro h
      have hz1 : contrib (boardGet b a) pl = 0 := by
        have := h a (Or.inl rfl)
        unfold contrib
        split_ifs with ho
        · omega
        · rfl
      have hz2 : (t.map fun i => contrib (boardGet b i) pl).sum = 0 :=
        (ih hat).mpr fun i hi => h i (Or.inr hi)
      omega

theorem boardCount_split (b : List PointState) :
    (boardCount b 1 =
      ((intRange 1 18).map fun i => contrib (boardGet b i) 1).sum +
      ((intRange 19 6).map fun i => contrib (boardGet b i) 1).sum) ∧
    (boardCount b 2 =
      ((intRange 1 6).map fun i => contrib (boardGet b i) 2).sum +
      ((intRange 7 18).map fun i => contrib (boardGet b i) 2).sum) := by
  constructor
  · have h : boardRange = intRange 1 18 ++ intRange 19 6 := by
      have := intRange_append 1 18 6
      norm_num at this
      exact this
    rw [boardCount, h, List.map_append, List.sum_append]
  · have h : boardRange = intRange 1 6 ++ intRange 7 18 := by
      have := intRange_append 1 6 18
      norm_num at this
      exact this
    rw [boardCount, h, List.map_append, List.sum_append]

theorem allHome_iff {gs : GameState} {player : Int} (hwf : WFState gs)
    (hp : player = 1 ∨ player = 2) (hc : Conserved gs) :
    (allCheckersInHomeBoardForAI gs player = true ↔
      barGet gs.bar player = 0 ∧
        homeCount gs player + bearoffGet gs.bearoff player = 15) := by
  have hbge := barGet_nonneg hwf player
  obtain ⟨hlen, hwb, -, -, -, -⟩ := hwf
  rcases hp with rfl | rfl
  · have hcons := hc.1
    unfold checkerTotal onBoardCount at hcons
    rw [(boardCount_split gs.board).1] at hcons
    have hout : ∀ i ∈ intRange 1 18, 1 ≤ i ∧ i ≤ 24 := fun i hi => by
      have := mem_intRange.mp hi; omega
    have houtnn : 0 ≤ ((intRange 1 18).map fun i => contrib (boardGet gs.board i) 1).sum :=
      List.sum_nonneg fun x hx => by
        obtain ⟨i, hi, rfl⟩ := List.mem_map.mp hx
        exact contrib_nonneg hwb hlen (hout i hi) 1
    unfold allCheckersInHomeBoardForAI
    by_cases hb : 0 < barGet gs.bar 1
    · rw [if_pos hb]
      simp only [Bool.false_eq_true, false_iff, not_and]
      intro h0
      omega
    · rw [if_neg hb, if_pos rfl, List.all_eq_true]
      have hbar0 : barGet gs.bar 1 = 0 := by omega
      have hzero := sum_contrib_zero_iff hwb hlen (intRange 1 18) hout 1
      constructor
      · intro h
        refine ⟨hbar0, ?_⟩
        have : ((intRange 1 18).map fun i => contrib (boardGet gs.board i) 1).sum = 0 :=
          hzero.mpr fun i hi => by have hx := h i hi; simp at hx; omega
        unfold homeCount homeRange
        rw [if_pos rfl]
        rw [hbar0] at hcons
        omega
      · intro ⟨h0, hhome⟩
        unfold homeCount homeRange at hhome
        rw [if_pos rfl] at hhome
        rw [hbar0] at hcons
        have : ((intRange 1 18).map fun i => contrib (boardGet gs.board i) 1).sum = 0 := by
          omega
        intro i hi
        have hni := hzero.mp this i hi
        simp
        omega
  · have hcons := hc.2
    unfold checkerTotal onBoardCount at hcons
    rw [(boardCount_split gs.board).2] at hcons
    have hout : ∀ i ∈ intRange 7 18, 1 ≤ i ∧ i ≤ 24 := fun i hi => by
      have := mem_intRange.mp hi; omega
    have houtnn : 0 ≤ ((intRange 7 18).map fun i => contrib (boardGet gs.board i) 2).sum :=
      List.sum_nonneg fun x hx => by
        obtain ⟨i, hi, rfl⟩ := List.mem_map.mp hx
        exact contrib_nonneg hwb hlen (hout i hi) 2
    unfold allCheckersInHomeBoardForAI
    by_cases hb : 0 < barGet gs.bar 2
    · rw [if_pos hb]
      simp only [Bool.false_eq_true, false_iff, not_and]
      intro h0
      omega
    · rw [if_neg hb, if_neg (by norm_num), List.all_eq_true]
      have hbar0 : barGet gs.bar 2 = 0 := by omega
      have hzero := sum_contrib_zero_iff hwb hlen (intRange 7 18) hout 2
      constructor
      · intro h
        refine ⟨hbar0, ?_⟩
        have : ((intRange 7 18).map fun i => contrib (boardGet gs.board i) 2).sum = 0 :=
          hzero.mpr fun i hi => by have hx := h i hi; simp at hx; omega
        unfold homeCount homeRange
        rw [if_neg (by norm_num)]
        rw [hbar0] at hcons
        omega
      · intro ⟨h0, hhome⟩
        unfold homeCount homeRange at hhome
        rw [if_neg (by norm_num)] at hhome
        rw [hbar0] at hcons
        have : ((intRange 7 18).map fun i => contrib (boardGet gs.board i) 2).sum = 0 := by
          omega
        intro i hi
        have hni := hzero.mp this i hi
        simp
        omega

/-- C4: the oracle `canBearOffForAI` (gated by
`allCheckersInHomeBoardForAI`) declares a bear-off legal exactly when all of
the mover's remaining checkers are inside the mover's 6-point home board
with none on the bar, and the die either exactly reaches the exit or
overshoots from the rearmost checker, as `specBearOffLegal` states. -/
theorem C4_bearoff_oracle (gs : GameState) (fromPoint dieValue player : Int)
    (hwf : WFState gs) (hc : Conserved gs) (hp : player = 1 ∨ player = 2)
    (hfp : 1 ≤ fromPoint ∧ fromPoint ≤ 24) :
    (canBearOffForAI gs fromPoint dieValue player = true ↔
      specBearOffLegal gs fromPoint dieValue player) := by
  unfold specBearOffLegal
  rcases hp with rfl | rfl
  · unfold canBearOffForAI
    by_cases hall : allCheckersInHomeBoardForAI gs 1 = true
    · rw [if_neg (by simp [hall])]
      have hA := (allHome_iff hwf (Or.inl rfl) hc).mp hall
      have hconf : ∀ p ∈ intRange 1 18,
          ¬((boardGet gs.board p).player = 1 ∧ 0 < (boardGet gs.board p).count) := by
        have hbar0 := hA.1
        unfold allCheckersInHomeBoardForAI at hall
        rw [if_neg (by omega), if_pos rfl, List.all_eq_true] at hall
        intro p hpm
        have hx := hall p hpm
        simp at hx
        omega
      simp only [show ((1 : Int) = 1) = True from by simp,
        show ((1 : Int) = 2) = False from by simp, if_true, if_false, true_and,
        false_and, or_false, false_or]
      split_ifs with h1 h2
      · constructor
        · intro _
          exact ⟨hA, Or.inl h1⟩
        · intro _
          rfl
      · rw [List.all_eq_true]
        constructor
        · intro hAll
          refine ⟨hA, Or.inr ⟨h2, ?_⟩⟩
          rintro ⟨p, hp1, hp24, hplt, hop, hcp⟩
          by_cases hle : p ≤ 18
          · exact hconf p (mem_intRange.mpr ⟨hp1, by omega⟩) ⟨hop, hcp⟩
          · have hx := hAll p (mem_boardRange.mpr ⟨hp1, hp24⟩)
            simp at hx
            omega
        · rintro ⟨-, hdisj⟩
          rcases hdisj with hex | ⟨hov, hnofar⟩
          · exact absurd hex h1
          · intro p hpmem
            simp only [Bool.not_eq_true', decide_eq_false_iff_not]
            rintro ⟨hge, hle, hop, hcp⟩
            have hb := mem_boardRange.mp hpmem
            exact hnofar ⟨p, hb.1, hb.2, by omega, hop, hcp⟩
      · simp only [Bool.false_eq_true, false_iff]
        rintro ⟨-, hdisj⟩
        rcases hdisj with hex | ⟨hov, -⟩
        · exact h1 hex
        · exact h2 hov
    · rw [if_pos (by simp [hall])]
      simp only [Bool.false_eq_true, false_iff]
      rintro ⟨ha, hh⟩
      exact hall ((allHome_iff hwf (Or.inl rfl) hc).mpr ha)
  · unfold canBearOffForAI
    by_cases hall : allCheckersInHomeBoardForAI gs 2 = true
    · rw [if_neg (by simp [hall])]
      have hA := (allHome_iff hwf (Or.inr rfl) hc).mp hall
      have hconf : ∀ p ∈ intRange 7 18,
          ¬((boardGet gs.board p).player = 2 ∧ 0 < (boardGet gs.board p).count) := by
        have hbar0 := hA.1
        unfold allCheckersInHomeBoardForAI at hall
        rw [if_neg (by omega), if_neg (by norm_num), List.all_eq_true] at hall
        intro p hpm
        have hx := hall p hpm
        simp at hx
        omega
      simp only [show ((2 : Int) = 1) = False from by simp,
        show ((2 : Int) = 2) = True from by simp, if_true, if_false, true_and,
        false_and, or_false, false_or]
      split_ifs with h1 h2
      · constructor
        · intro _
          exact ⟨hA, Or.inl h1⟩
        · intro _
          rfl
      · rw [List.all_eq_true]
        constructor
        · intro hAll
          refine ⟨hA, Or.inr ⟨h2, ?_⟩⟩
          rintro ⟨p, hp1, hp24, hplt, hop, hcp⟩
          by_cases hge : 7 ≤ p
          · exact hconf p (mem_intRange.mpr ⟨hge, by omega⟩) ⟨hop, hcp⟩
          · have hx := hAll p (mem_boardRange.mpr ⟨hp1, hp24⟩)
            simp at hx
            omega
        · rintro ⟨-, hdisj⟩
          rcases hdisj with hex | ⟨hov, hnofar⟩
          · exact absurd hex h1
          · intro p hpmem
            simp only [Bool.not_eq_true', decide_eq_false_iff_not]
            rintro ⟨hge, hle, hop, hcp⟩
            have hb := mem_boardRange.mp hpmem
            exact hnofar ⟨p, hb.1, hb.2, by omega, hop, hcp⟩
      · simp only [Bool.false_eq_true, false_iff]
        rintro ⟨-, hdisj⟩
        rcases hdisj with hex | ⟨hov, -⟩
        · exact h1 hex
        · exact h2 hov
    · rw [if_pos (by simp [hall])]
      simp only [Bool.false_eq_true, false_iff]
      rintro ⟨ha, hh⟩
      exact hall ((allHome_iff hwf (Or.inr rfl) hc).mpr ha)

/-- Witness for C4: with player 2 fully home on points 1-3, bearing off from
point 3 with an overshooting 6 is legal (3 is the rearmost checker). -/
theorem C4_bearoff_oracle_witness :
    specBearOffLegal
      { board := mkBoard fun i =>
          if i = 1 then ⟨2, 4⟩ else if i = 2 then ⟨2, 5⟩ else if i = 3 then ⟨2, 6⟩
          else if i = 19 then ⟨1, 15⟩ else ⟨0, 0⟩
        bar := ⟨0, 0⟩, bearoff := ⟨0, 0⟩, currentPlayer := 2, availableMoves := [6] }
      3 6 2 :=
  (C4_bearoff_oracle _ 3 6 2 (by decide) (by decide) (Or.inr rfl)
    (by norm_num)).mp (by decide)


/- ===== C7: the strategic filters drop only violating sequences and waive ===== -/

lemma filterOrWaive_spec {α : Type} (L : List α) (p : α → Bool) :
    (∀ s ∈ L, s ∉ (if 0 < (L.filter p).length then L.filter p else L) → p s = false) ∧
    ((∀ s ∈ L, p s = false) → (if 0 < (L.filter p).length then L.filter p else L) = L) ∧
    (L ≠ [] → (if 0 < (L.filter p).length then L.filter p else L) ≠ []) := by
  by_cases h : 0 < (L.filter p).length
  · rw [if_pos h]
    refine ⟨?_, ?_, ?_⟩
    · intro s hs hns
      by_contra hp
      exact hns (List.mem_filter.2 ⟨hs, by revert hp; cases p s <;> simp⟩)
    · intro hall
      exfalso
      have hnil : L.filter p = [] :=
        List.filter_eq_nil_iff.2 fun a ha => by simp [hall a ha]
      rw [hnil] at h
      simp at h
    · intro hL
      intro hcon
      rw [hcon] at h
      simp at h
  · rw [if_neg h]
    exact ⟨fun s hs hns => absurd hs hns, fun _ => rfl, fun h1 => h1⟩

lemma homeSafety_spec (gs : GameState) (player : Int) (L : List (List Move)) :
    (∀ s ∈ L, s ∉ enforcePlayer2HomeBoardSafety gs L player →
        sequenceLeavesPlayer2HomeBoardBlot gs s player = true) ∧
    ((∀ s ∈ L, sequenceLeavesPlayer2HomeBoardBlot gs s player = true) →
        enforcePlayer2HomeBoardSafety gs L player = L) ∧
    (L ≠ [] → enforcePlayer2HomeBoardSafety gs L player ≠ []) := by
  unfold enforcePlayer2HomeBoardSafety
  by_cases hp : player ≠ 2
  · rw [if_pos hp]
    exact ⟨fun s hs hns => absurd hs hns, fun _ => rfl, fun h => h⟩
  · rw [if_neg hp]
    dsimp only
    obtain ⟨h1, h2, h3⟩ := filterOrWaive_spec L
      (fun s => !sequenceLeavesPlayer2HomeBoardBlot gs s player)
    refine ⟨?_, ?_, h3⟩
    · intro s hs hns
      have hx := h1 s hs hns
      revert hx
      cases sequenceLeavesPlayer2HomeBoardBlot gs s player <;> simp
    · intro hall
      exact h2 fun s hs => by simp [hall s hs]

lemma stackLimit_spec (gs : GameState) (player : Int) (L : List (List Move)) :
    (∀ s ∈ L, s ∉ enforceStackLimitOnPoints2And1 gs L player →
        sequenceExceedsStackLimit gs s player = true) ∧
    ((∀ s ∈ L, sequenceExceedsStackLimit gs s player = true) →
        enforceStackLimitOnPoints2And1 gs L player = L) ∧
    (L ≠ [] → enforceStackLimitOnPoints2And1 gs L player ≠ []) := by
  unfold enforceStackLimitOnPoints2And1
  by_cases hp : player ≠ 2
  · rw [if_pos hp]
    exact ⟨fun s hs hns => absurd hs hns, fun _ => rfl, fun h => h⟩
  · rw [if_neg hp]
    dsimp only
    obtain ⟨h1, h2, h3⟩ := filterOrWaive_spec L
      (fun s => !sequenceExceedsStackLimit gs s player)
    refine ⟨?_, ?_, h3⟩
    · intro s hs hns
      have hx := h1 s hs hns
      revert hx
      cases sequenceExceedsStackLimit gs s player <;> simp
    · intro hall
      exact h2 fun s hs => by simp [hall s hs]

lemma distribution_spec (gs : GameState) (player : Int) (L : List (List Move)) :
    (∀ s ∈ L, s ∉ enforceDistribution gs L player →
        sequenceExceedsDistributionLimit gs s player = true) ∧
    ((∀ s ∈ L, sequenceExceedsDistributionLimit gs s player = true) →
        enforceDistribution gs L player = L) ∧
    (L ≠ [] → enforceDistribution gs L player ≠ []) := by
  unfold enforceDistribution
  by_cases hp : player ≠ 2
  · rw [if_pos hp]
    exact ⟨fun s hs hns => absurd hs hns, fun _ => rfl, fun h => h⟩
  · rw [if_neg hp]
    dsimp only
    obtain ⟨h1, h2, h3⟩ := filterOrWaive_spec L
      (fun s => !sequenceExceedsDistributionLimit gs s player)
    refine ⟨?_, ?_, h3⟩
    · intro s hs hns
      have hx := h1 s hs hns
      revert hx
      cases sequenceExceedsDistributionLimit gs s player <;> simp
    · intro hall
      exact h2 fun s hs => by simp [hall s hs]

lemma outsideHome_spec (gs : GameState) (player : Int) (L : List (List Move)) :
    (∀ s ∈ L, s ∉ enforcePlayCheckersOutsideHomeBoard gs L player →
        sequenceUsesCheckersOutsideHomeBoard s player = false) ∧
    ((∀ s ∈ L, sequenceUsesCheckersOutsideHomeBoard s player = false) →
        enforcePlayCheckersOutsideHomeBoard gs L player = L) ∧
    (L ≠ [] → enforcePlayCheckersOutsideHomeBoard gs L player ≠ []) := by
  unfold enforcePlayCheckersOutsideHomeBoard
  by_cases hp : player ≠ 2
  · rw [if_pos hp]
    exact ⟨fun s hs hns => absurd hs hns, fun _ => rfl, fun h => h⟩
  · rw [if_neg hp]
    dsimp only
    by_cases hm : 2 < countMadePointsInHomeBoard gs player
    · rw [if_pos hm]
      exact filterOrWaive_spec L fun s => sequenceUsesCheckersOutsideHomeBoard s player
    · rw [if_neg hm]
      exact ⟨fun s hs hns => absurd hs hns, fun _ => rfl, fun h => h⟩

/-- **C7.** Each strategic filter (player-2 home-board blot safety, stack cap
on points 2 and 1, distribution cap, play-from-outside-home) removes only
sequences violating its constraint, returns its input list unchanged when
every candidate violates the constraint, and returns a non-empty list on
every non-empty input; consequently the filter pipeline used by
`getBestMove` never empties a non-empty candidate list. -/
theorem C7_filters_drop_only_violating_and_waive (gs : GameState) (player : Int)
    (L : List (List Move)) (hne : L ≠ []) : filterSpecHolds gs player L := by
  obtain ⟨a1, a2, a3⟩ := homeSafety_spec gs player L
  obtain ⟨b1, b2, b3⟩ := stackLimit_spec gs player L
  obtain ⟨c1, c2, c3⟩ := distribution_spec gs player L
  obtain ⟨d1, d2, d3⟩ := outsideHome_spec gs player L
  refine ⟨a1, a2, a3 hne, b1, b2, b3 hne, c1, c2, c3 hne, d1, d2, d3 hne, ?_⟩
  obtain ⟨-, -, h2⟩ := stackLimit_spec gs player
    (enforcePlayer2HomeBoardSafety gs L player)
  obtain ⟨-, -, h3⟩ := distribution_spec gs player
    (enforceStackLimitOnPoints2And1 gs (enforcePlayer2HomeBoardSafety gs L player) player)
  obtain ⟨-, -, h4⟩ := outsideHome_spec gs player
    (enforceDistribution gs
      (enforceStackLimitOnPoints2And1 gs
        (enforcePlayer2HomeBoardSafety gs L player) player) player)
  exact h4 (h3 (h2 (a3 hne)))

/-- Witness for C7: the filter guarantees at the opening position with the
singleton candidate list holding the empty (pass) sequence. -/
theorem C7_filters_drop_only_violating_and_waive_witness :
    ([([] : List Move)] : List (List Move)) ≠ [] ∧ filterSpecHolds startState 2 [[]] :=
  ⟨by simp, C7_filters_drop_only_violating_and_waive startState 2 [[]] (by simp)⟩


/- ===== C9: blot-safety reachability test is inverted ===== -/

/-- **C9.** Refuted on a concrete position (`c9State`): player 2's lone
checker on point 5 can be reached by player 1 within one die roll — from
point 2 with a 3, and by entry from the bar — so the claim classifies it
vulnerable; yet `evaluateBlotSafety` reports zero vulnerable blots and
gives the blot only the smallest ("safe") penalty of -5, because the code
measures the pip distance on the wrong side of the blot and its bar clause
compares against the far entry point, so it can never fire. -/
theorem C9_blot_reachability_diverges :
    (boardGet c9State.board 5).player = 2 ∧ (boardGet c9State.board 5).count = 1 ∧
    specBlotReachable c9State 2 5 = true ∧
    0 < barGet c9State.bar 1 ∧
    evaluateBlotSafety c9State 2 = ⟨0, -5⟩ := by decide


/- ===== C5: phase-detection priority order ===== -/

lemma primeStep_true (s : PrimeState) : primeStep s true =
    { maxPrimeLength := max s.maxPrimeLength (s.currentPrime + 1),
      primeCount := (if s.currentPrime + 1 = 1 then s.primeCount + 1 else s.primeCount),
      currentPrime := s.currentPrime + 1,
      gaps := s.gaps } := rfl

lemma primeStep_false (s : PrimeState) : primeStep s false =
    { s with
      gaps := (if 0 < s.currentPrime then s.gaps + 1 else s.gaps)
      currentPrime := 0 } := rfl

lemma leadingTrue_false (t : List Bool) : leadingTrue (false :: t) = 0 := rfl

lemma leadingTrue_true (t : List Bool) : leadingTrue (true :: t) = leadingTrue t + 1 := rfl

lemma maxRun_false (t : List Bool) : maxRun (false :: t) = maxRun t := rfl

lemma maxRun_true (t : List Bool) :
    maxRun (true :: t) = max (leadingTrue t + 1) (maxRun t) := rfl

lemma leadingTrue_le_maxRun (bs : List Bool) : leadingTrue bs ≤ maxRun bs := by
  cases bs with
  | nil => exact Nat.le_refl 0
  | cons b t => cases b <;> simp [leadingTrue, maxRun] <;> omega

lemma foldl_primeStep_max : ∀ (bs : List Bool) (s : PrimeState),
    s.currentPrime ≤ s.maxPrimeLength →
    (bs.foldl primeStep s).maxPrimeLength =
      max s.maxPrimeLength (max (s.currentPrime + leadingTrue bs) (maxRun bs)) := by
  intro bs
  induction bs with
  | nil =>
    intro s hinv
    simp only [List.foldl_nil, leadingTrue, maxRun]
    omega
  | cons b t ih =>
    intro s hinv
    rw [List.foldl_cons]
    cases b
    · rw [primeStep_false, leadingTrue_false, maxRun_false]
      have hh := ih { s with
        gaps := (if 0 < s.currentPrime then s.gaps + 1 else s.gaps)
        currentPrime := 0 } (Nat.zero_le _)
      dsimp only at hh
      rw [hh]
      have hle := leadingTrue_le_maxRun t
      omega
    · rw [primeStep_true, leadingTrue_true, maxRun_true]
      have hh := ih {
        maxPrimeLength := max s.maxPrimeLength (s.currentPrime + 1)
        primeCount := (if s.currentPrime + 1 = 1 then s.primeCount + 1 else s.primeCount)
        currentPrime := s.currentPrime + 1
        gaps := s.gaps } (by dsimp only; omega)
      dsimp only at hh
      rw [hh]
      omega

lemma primeStep_count_le (s : PrimeState) (b : Bool) :
    s.primeCount ≤ (primeStep s b).primeCount := by
  cases b
  · rw [primeStep_false]
  · rw [primeStep_true]
    dsimp only
    split_ifs <;> omega

lemma foldl_primeStep_count_mono : ∀ (bs : List Bool) (s : PrimeState),
    s.primeCount ≤ (bs.foldl primeStep s).primeCount := by
  intro bs
  induction bs with
  | nil => intro s; exact Nat.le_refl _
  | cons b t ih =>
    intro s
    rw [List.foldl_cons]
    exact Nat.le_trans (primeStep_count_le s b) (ih (primeStep s b))

lemma primeStep_count_inv (s : PrimeState) (b : Bool)
    (h : 0 < s.currentPrime → 1 ≤ s.primeCount) :
    0 < (primeStep s b).currentPrime → 1 ≤ (primeStep s b).primeCount := by
  cases b
  · rw [primeStep_false]
    dsimp only
    omega
  · rw [primeStep_true]
    dsimp only
    split_ifs <;> omega

lemma foldl_primeStep_count_pos : ∀ (bs : List Bool) (s : PrimeState),
    (0 < s.currentPrime → 1 ≤ s.primeCount) → true ∈ bs →
    1 ≤ (bs.foldl primeStep s).primeCount := by
  intro bs
  induction bs with
  | nil =>
    intro s _ hmem
    simp at hmem
  | cons b t ih =>
    intro s hinv hmem
    rw [List.foldl_cons]
    rcases List.mem_cons.mp hmem with hb | ht
    · cases hb
      have h1 : 1 ≤ (primeStep s true).primeCount := by
        rw [primeStep_true]
        dsimp only
        split_ifs <;> omega
      exact Nat.le_trans h1 (foldl_primeStep_count_mono t (primeStep s true))
    · exact ih (primeStep s b) (primeStep_count_inv s b hinv) ht

lemma foldl_primeStep_count_allfalse : ∀ (bs : List Bool) (s : PrimeState),
    (∀ b ∈ bs, b = false) → (bs.foldl primeStep s).primeCount = s.primeCount := by
  intro bs
  induction bs with
  | nil => intro s _; rfl
  | cons b t ih =>
    intro s hall
    rw [List.foldl_cons, hall b (List.mem_cons_self b t), primeStep_false]
    exact ih _ fun x hx => hall x (List.mem_cons_of_mem b hx)

lemma le_leadingTrue_iff : ∀ (bs : List Bool) (k : Nat),
    k ≤ leadingTrue bs ↔ k ≤ bs.length ∧ ∀ m, m < k → bs.getD m false = true := by
  intro bs
  induction bs with
  | nil =>
    intro k
    have h0 : leadingTrue ([] : List Bool) = 0 := rfl
    constructor
    · intro h
      have hk : k = 0 := by omega
      subst hk
      exact ⟨Nat.zero_le _, fun m hm => absurd hm (Nat.not_lt_zero m)⟩
    · rintro ⟨h, -⟩
      simp at h
      omega
  | cons b t ih =>
    intro k
    cases k with
    | zero =>
      constructor
      · intro _
        exact ⟨Nat.zero_le _, fun m hm => absurd hm (Nat.not_lt_zero m)⟩
      · intro _
        exact Nat.zero_le _
    | succ k' =>
      cases b
      · rw [leadingTrue_false]
        constructor
        · intro h
          omega
        · rintro ⟨-, hall⟩
          have h0 := hall 0 (Nat.succ_pos k')
          simp at h0
      · rw [leadingTrue_true]
        have hs : k' + 1 ≤ leadingTrue t + 1 ↔ k' ≤ leadingTrue t := by omega
        rw [hs, ih k']
        constructor
        · rintro ⟨hlen, hall⟩
          refine ⟨by simpa using Nat.succ_le_succ hlen, fun m hm => ?_⟩
          cases m with
          | zero => rfl
          | succ m' => simpa [List.getD_cons_succ] using hall m' (by omega)
        · rintro ⟨hlen, hall⟩
          refine ⟨by simp at hlen; omega, fun m hm => ?_⟩
          have hx := hall (m + 1) (by omega)
          simpa [List.getD_cons_succ] using hx

lemma le_maxRun_iff : ∀ (bs : List Bool) (k : Nat), 0 < k →
    (k ≤ maxRun bs ↔
      ∃ j, j + k ≤ bs.length ∧ ∀ m, m < k → bs.getD (j + m) false = true) := by
  intro bs
  induction bs with
  | nil =>
    intro k hk
    have h0 : maxRun ([] : List Bool) = 0 := rfl
    constructor
    · intro h
      omega
    · rintro ⟨j, hj, -⟩
      simp at hj
      omega
  | cons b t ih =>
    intro k hk
    cases b
    · rw [maxRun_false, ih k hk]
      constructor
      · rintro ⟨j, hj, hall⟩
        refine ⟨j + 1, by simp; omega, fun m hm => ?_⟩
        have heq : j + 1 + m = (j + m) + 1 := by omega
        rw [heq, List.getD_cons_succ]
        exact hall m hm
      · rintro ⟨j, hj, hall⟩
        cases j with
        | zero =>
          have h0 := hall 0 hk
          simp at h0
        | succ j' =>
          refine ⟨j', by simp at hj; omega, fun m hm => ?_⟩
          have hx := hall m hm
          have heq : j' + 1 + m = (j' + m) + 1 := by omega
          rwa [heq, List.getD_cons_succ] at hx
    · rw [maxRun_true, le_max_iff, ih k hk]
      have hfirst : k ≤ leadingTrue t + 1 ↔
          k ≤ (true :: t).length ∧ ∀ m, m < k → (true :: t).getD m false = true := by
        rw [← leadingTrue_true, le_leadingTrue_iff]
      rw [hfirst]
      constructor
      · rintro (⟨hlen, hall⟩ | ⟨j, hj, hall⟩)
        · exact ⟨0, by simpa using hlen, fun m hm => by simpa using hall m hm⟩
        · refine ⟨j + 1, by simp; omega, fun m hm => ?_⟩
          have heq : j + 1 + m = (j + m) + 1 := by omega
          rw [heq, List.getD_cons_succ]
          exact hall m hm
      · rintro ⟨j, hj, hall⟩
        cases j with
        | zero =>
          left
          exact ⟨by simpa using hj, fun m hm => by simpa using hall m hm⟩
        | succ j' =>
          right
          refine ⟨j', by simp at hj; omega, fun m hm => ?_⟩
          have hx := hall m hm
          have heq : j' + 1 + m = (j' + m) + 1 := by omega
          rwa [heq, List.getD_cons_succ] at hx

lemma intRange_getElem? : ∀ (n : Nat) (a : Int) (j : Nat),
    (intRange a n)[j]? = if j < n then some (a + j) else none := by
  intro n
  induction n with
  | zero =>
    intro a j
    simp [intRange]
  | succ n ih =>
    intro a j
    cases j with
    | zero => simp [intRange]
    | succ j' =>
      simp only [intRange, List.getElem?_cons_succ, ih (a + 1) j']
      by_cases hj : j' < n
      · rw [if_pos hj, if_pos (by omega)]
        congr 1
        push_cast
        ring
      · rw [if_neg hj, if_neg (by omega)]

lemma boardRange_length : boardRange.length = 24 := rfl

lemma boardRange_map_getD (f : Int → Bool) (j : Nat) (hj : j < 24) :
    (boardRange.map f).getD j false = f (1 + j) := by
  rw [List.getD_eq_getElem?_getD, List.getElem?_map, boardRange, intRange_getElem?,
    if_pos hj]
  rfl

lemma evaluatePrimes_length_eq (gs : GameState) (player : Int) :
    (evaluatePrimes gs player).length =
      maxRun (boardRange.map fun i => madeB gs player i) := by
  unfold evaluatePrimes
  dsimp only
  rw [foldl_primeStep_max _ ⟨0, 0, 0, 0⟩ (Nat.le_refl 0)]
  have hle := leadingTrue_le_maxRun (boardRange.map fun i => madeB gs player i)
  dsimp only
  omega

lemma evaluatePrimes_count_pos_iff (gs : GameState) (player : Int) :
    1 ≤ (evaluatePrimes gs player).count ↔ hasMadePointB gs player = true := by
  unfold evaluatePrimes hasMadePointB
  dsimp only
  rw [List.any_eq_true]
  constructor
  · intro h
    by_contra hno
    push_neg at hno
    simp only [Bool.not_eq_true] at hno
    have hall : ∀ b ∈ boardRange.map fun i => madeB gs player i, b = false := by
      intro b hb
      obtain ⟨i, hi, rfl⟩ := List.mem_map.mp hb
      exact hno i hi
    rw [foldl_primeStep_count_allfalse _ _ hall] at h
    dsimp only at h
    omega
  · rintro ⟨i, hi, hmade⟩
    apply foldl_primeStep_count_pos
    · intro h0
      dsimp only at h0
      omega
    · exact List.mem_map.mpr ⟨i, hi, hmade⟩

lemma hasRunOfThree_iff (gs : GameState) (player : Int) :
    hasRunOfThree gs player = true ↔ 3 ≤ (evaluatePrimes gs player).length := by
  rw [evaluatePrimes_length_eq,
    le_maxRun_iff (boardRange.map fun i => madeB gs player i) 3 (by omega),
    hasRunOfThree, List.any_eq_true]
  constructor
  · rintro ⟨i, hi, hmade⟩
    have hib := mem_intRange.mp hi
    simp only [Bool.and_eq_true] at hmade
    obtain ⟨⟨h1, h2⟩, h3⟩ := hmade
    refine ⟨(i - 1).toNat, ?_, ?_⟩
    · rw [List.length_map, boardRange_length]
      omega
    · intro m hm
      rw [boardRange_map_getD (fun i => madeB gs player i) ((i - 1).toNat + m) (by omega)]
      interval_cases m
      · have e0 : (1 : ℤ) + ((i - 1).toNat + 0 : Nat) = i := by omega
        rw [e0]
        exact h1
      · have e1 : (1 : ℤ) + ((i - 1).toNat + 1 : Nat) = i + 1 := by omega
        rw [e1]
        exact h2
      · have e2 : (1 : ℤ) + ((i - 1).toNat + 2 : Nat) = i + 2 := by omega
        rw [e2]
        exact h3
  · rintro ⟨j, hj, hall⟩
    rw [List.length_map, boardRange_length] at hj
    refine ⟨(1 : Int) + j, mem_intRange.mpr ⟨by omega, by omega⟩, ?_⟩
    simp only [Bool.and_eq_true]
    have h0 := hall 0 (by omega)
    have h1 := hall 1 (by omega)
    have h2 := hall 2 (by omega)
    rw [boardRange_map_getD (fun i => madeB gs player i) (j + 0) (by omega)] at h0
    rw [boardRange_map_getD (fun i => madeB gs player i) (j + 1) (by omega)] at h1
    rw [boardRange_map_getD (fun i => madeB gs player i) (j + 2) (by omega)] at h2
    have e0 : (1 : ℤ) + ((j + 0 : Nat) : Int) = 1 + (j : ℤ) := by omega
    have e1 : (1 : ℤ) + ((j + 1 : Nat) : Int) = 1 + (j : ℤ) + 1 := by omega
    have e2 : (1 : ℤ) + ((j + 2 : Nat) : Int) = 1 + (j : ℤ) + 2 := by omega
    rw [e0] at h0
    rw [e1] at h1
    rw [e2] at h2
    exact ⟨⟨h0, h1⟩, h2⟩

lemma run3_madePoint (gs : GameState) (player : Int)
    (h : hasRunOfThree gs player = true) : hasMadePointB gs player = true := by
  rw [hasRunOfThree, List.any_eq_true] at h
  obtain ⟨i, hi, hmade⟩ := h
  simp only [Bool.and_eq_true] at hmade
  have hib := mem_intRange.mp hi
  rw [hasMadePointB, List.any_eq_true]
  exact ⟨i, mem_boardRange.mpr ⟨by omega, by omega⟩, hmade.1.1⟩

/-- **C5.** On well-formed, checker-conserving states `detectGamePhase`
classifies exactly as the claim orders it: RACE when both sides are fully
home, else BACKGAME when the absolute pip difference exceeds 30, else
PRIMING when both sides hold a 3-long run of made points, else BLITZ when
player 2 has an opponent checker on the bar, at least one run of made
points, and at most 2 vulnerable blots by the blot-safety counter, else
CONTACT. -/
theorem C5_phase_priority (gs : GameState) (hwf : WFState gs) (hc : Conserved gs) :
    detectGamePhase gs = specPhase gs := by
  have h1a := allHome_iff hwf (Or.inl rfl) hc
  have h1b := allHome_iff hwf (Or.inr rfl) hc
  have h2 : 30 < (calculatePipCount gs 1 - calculatePipCount gs 2).natAbs ↔
      (30 : ℤ) < |calculatePipCount gs 1 - calculatePipCount gs 2| := by
    rw [← Int.natCast_natAbs]
    omega
  have hcnt2 := evaluatePrimes_count_pos_iff gs 2
  have hcnt1 := evaluatePrimes_count_pos_iff gs 1
  have hrun2 := hasRunOfThree_iff gs 2
  have hrun1 := hasRunOfThree_iff gs 1
  have h3 : (1 ≤ (evaluatePrimes gs 2).count ∧ 1 ≤ (evaluatePrimes gs 1).count ∧
      3 ≤ (evaluatePrimes gs 2).length ∧ 3 ≤ (evaluatePrimes gs 1).length) ↔
      (hasRunOfThree gs 2 = true ∧ hasRunOfThree gs 1 = true) := by
    constructor
    · rintro ⟨-, -, hl2, hl1⟩
      exact ⟨hrun2.mpr hl2, hrun1.mpr hl1⟩
    · rintro ⟨ha2, ha1⟩
      exact ⟨hcnt2.mpr (run3_madePoint gs 2 ha2), hcnt1.mpr (run3_madePoint gs 1 ha1),
        hrun2.mp ha2, hrun1.mp ha1⟩
  have h4 : (isPrimingOrBlitzing gs 2 = "BLITZ") ↔
      (1 ≤ barGet gs.bar 1 ∧ hasMadePointB gs 2 = true ∧
        (evaluateBlotSafety gs 2).count ≤ 2) := by
    unfold isPrimingOrBlitzing
    have hop : opponentOf 2 = 1 := rfl
    rw [hop]
    dsimp only
    split_ifs with hb hp
    · constructor
      · intro _
        exact ⟨hb.1, hcnt2.mp hb.2.1, hb.2.2⟩
      · intro _
        rfl
    · constructor
      · intro h
        exact absurd h (by decide)
      · rintro ⟨hbar, hmade, hblots⟩
        exact absurd ⟨hbar, hcnt2.mpr hmade, hblots⟩ hb
    · constructor
      · intro h
        exact absurd h (by decide)
      · rintro ⟨hbar, hmade, hblots⟩
        exact absurd ⟨hbar, hcnt2.mpr hmade, hblots⟩ hb
  unfold detectGamePhase specPhase
  dsimp only
  by_cases c1 : allCheckersInHomeBoardForAI gs 1 = true ∧ allCheckersInHomeBoardForAI gs 2 = true
  · have hs1 : (barGet gs.bar 1 = 0 ∧ homeCount gs 1 + bearoffGet gs.bearoff 1 = 15) ∧
        (barGet gs.bar 2 = 0 ∧ homeCount gs 2 + bearoffGet gs.bearoff 2 = 15) :=
      ⟨h1a.mp c1.1, h1b.mp c1.2⟩
    rw [if_pos c1, if_pos hs1]
  · have hs1 : ¬((barGet gs.bar 1 = 0 ∧ homeCount gs 1 + bearoffGet gs.bearoff 1 = 15) ∧
        (barGet gs.bar 2 = 0 ∧ homeCount gs 2 + bearoffGet gs.bearoff 2 = 15)) :=
      fun hs => c1 ⟨h1a.mpr hs.1, h1b.mpr hs.2⟩
    rw [if_neg c1, if_neg hs1]
    by_cases c2 : 30 < (calculatePipCount gs 1 - calculatePipCount gs 2).natAbs
    · rw [if_pos c2, if_pos (h2.mp c2)]
    · have hs2 : ¬((30 : ℤ) < |calculatePipCount gs 1 - calculatePipCount gs 2|) :=
        fun hs => c2 (h2.mpr hs)
      rw [if_neg c2, if_neg hs2]
      by_cases c3 : 1 ≤ (evaluatePrimes gs 2).count ∧ 1 ≤ (evaluatePrimes gs 1).count ∧
          3 ≤ (evaluatePrimes gs 2).length ∧ 3 ≤ (evaluatePrimes gs 1).length
      · rw [if_pos c3, if_pos (h3.mp c3)]
      · have hs3 : ¬(hasRunOfThree gs 2 = true ∧ hasRunOfThree gs 1 = true) :=
          fun hs => c3 (h3.mpr hs)
        rw [if_neg c3, if_neg hs3]
        by_cases c4 : isPrimingOrBlitzing gs 2 = "BLITZ"
        · rw [if_pos c4, if_pos (h4.mp c4)]
        · have hs4 : ¬(1 ≤ barGet gs.bar 1 ∧ hasMadePointB gs 2 = true ∧
              (evaluateBlotSafety gs 2).count ≤ 2) :=
            fun hs => c4 (h4.mpr hs)
          rw [if_neg c4, if_neg hs4]

/-- Witness for C5: the claim's classifier and `detectGamePhase` agree on
the opening position. -/
theorem C5_phase_priority_witness :
    WFState startState ∧ Conserved startState ∧
      detectGamePhase startState = specPhase startState :=
  ⟨by decide, by decide, C5_phase_priority startState (by decide) (by decide)⟩


/- ===== C8: the transposition cache is semantically transparent ===== -/

lemma foldl_congrF {α β : Type} : ∀ (l : List β) (f g : α → β → α) (a : α),
    (∀ x ∈ l, ∀ acc, f acc x = g acc x) → List.foldl f a l = List.foldl g a l := by
  intro l
  induction l with
  | nil => intro f g a _; rfl
  | cons x t ih =>
    intro f g a h
    rw [List.foldl_cons, List.foldl_cons, h x (List.mem_cons_self x t) a]
    exact ih f g _ fun y hy acc => h y (List.mem_cons_of_mem x hy) acc

lemma any_congrF {β : Type} : ∀ (l : List β) (p q : β → Bool),
    (∀ x ∈ l, p x = q x) → l.any p = l.any q := by
  intro l
  induction l with
  | nil => intro p q _; rfl
  | cons x t ih =>
    intro p q h
    rw [List.any_cons, List.any_cons, h x (List.mem_cons_self x t),
      ih p q fun y hy => h y (List.mem_cons_of_mem x hy)]

lemma all_congrF {β : Type} : ∀ (l : List β) (p q : β → Bool),
    (∀ x ∈ l, p x = q x) → l.all p = l.all q := by
  intro l
  induction l with
  | nil => intro p q _; rfl
  | cons x t ih =>
    intro p q h
    rw [List.all_cons, List.all_cons, h x (List.mem_cons_self x t),
      ih p q fun y hy => h y (List.mem_cons_of_mem x hy)]

lemma calculatePipCount_congr {gs gs' : GameState} (h : BoardEq gs gs') (player : Int) :
    calculatePipCount gs player = calculatePipCount gs' player := by
  obtain ⟨hb, hbar, -⟩ := h
  unfold calculatePipCount
  have h1 : (boardRange.map fun i =>
      if (boardGet gs.board i).player = player then (boardGet gs.board i).count * (25 - i)
      else 0) = boardRange.map fun i =>
      if (boardGet gs'.board i).player = player then (boardGet gs'.board i).count * (25 - i)
      else 0 :=
    List.map_congr_left fun i hi => by
      have hm := mem_boardRange.mp hi
      rw [hb i hm.1 hm.2]
  have h2 : (boardRange.map fun i =>
      if (boardGet gs.board i).player = player then (boardGet gs.board i).count * i
      else 0) = boardRange.map fun i =>
      if (boardGet gs'.board i).player = player then (boardGet gs'.board i).count * i
      else 0 :=
    List.map_congr_left fun i hi => by
      have hm := mem_boardRange.mp hi
      rw [hb i hm.1 hm.2]
  rw [h1, h2, hbar]

lemma calculateRaceCount_congr {gs gs' : GameState} (h : BoardEq gs gs') (player : Int) :
    calculateRaceCount gs player = calculateRaceCount gs' player := by
  unfold calculateRaceCount
  rw [calculatePipCount_congr h (opponentOf player), calculatePipCount_congr h player]

lemma allCheckersInHomeBoardForAI_congr {gs gs' : GameState} (h : BoardEq gs gs')
    (player : Int) :
    allCheckersInHomeBoardForAI gs player = allCheckersInHomeBoardForAI gs' player := by
  obtain ⟨hb, hbar, -⟩ := h
  unfold allCheckersInHomeBoardForAI
  have h1 : ((intRange 1 18).all fun p =>
      !((boardGet gs.board p).player = 1 ∧ 0 < (boardGet gs.board p).count)) =
      (intRange 1 18).all fun p =>
      !((boardGet gs'.board p).player = 1 ∧ 0 < (boardGet gs'.board p).count) :=
    all_congrF _ _ _ fun p hp => by
      have hm := mem_intRange.mp hp
      rw [hb p (by omega) (by omega)]
  have h2 : ((intRange 7 18).all fun p =>
      !((boardGet gs.board p).player = 2 ∧ 0 < (boardGet gs.board p).count)) =
      (intRange 7 18).all fun p =>
      !((boardGet gs'.board p).player = 2 ∧ 0 < (boardGet gs'.board p).count) :=
    all_congrF _ _ _ fun p hp => by
      have hm := mem_intRange.mp hp
      rw [hb p (by omega) (by omega)]
  rw [h1, h2, hbar]

lemma calculateDistribution_congr {gs gs' : GameState} (h : BoardEq gs gs')
    (player : Int) : calculateDistribution gs player = calculateDistribution gs' player := by
  obtain ⟨hb, -, -⟩ := h
  unfold calculateDistribution
  dsimp only
  have hst := foldl_congrF boardRange
    (fun st i =>
      if (boardGet gs.board i).player = player ∧ 0 < (boardGet gs.board i).count then
        { occupiedPoints := st.occupiedPoints + 1,
          gaps := (if st.lastOccupied ≠ -1 ∧ 1 < i - st.lastOccupied then
              st.gaps + (i - st.lastOccupied - 1)
            else st.gaps),
          lastOccupied := i }
      else st)
    (fun st i =>
      if (boardGet gs'.board i).player = player ∧ 0 < (boardGet gs'.board i).count then
        { occupiedPoints := st.occupiedPoints + 1,
          gaps := (if st.lastOccupied ≠ -1 ∧ 1 < i - st.lastOccupied then
              st.gaps + (i - st.lastOccupied - 1)
            else st.gaps),
          lastOccupied := i }
      else st)
    (⟨0, 0, -1⟩ : DistState)
    (fun i hi acc => by
      have hm := mem_boardRange.mp hi
      dsimp only
      rw [hb i hm.1 hm.2])
  rw [hst]

lemma hasNoContactOnPlayer2Side_congr {gs gs' : GameState} (h : BoardEq gs gs') :
    hasNoContactOnPlayer2Side gs = hasNoContactOnPlayer2Side gs' := by
  obtain ⟨hb, hbar, -⟩ := h
  unfold hasNoContactOnPlayer2Side
  have h1 : ((intRange 1 12).all fun i =>
      !((boardGet gs.board i).player = 1 ∧ 0 < (boardGet gs.board i).count)) =
      (intRange 1 12).all fun i =>
      !((boardGet gs'.board i).player = 1 ∧ 0 < (boardGet gs'.board i).count) :=
    all_congrF _ _ _ fun i hi => by
      have hm := mem_intRange.mp hi
      rw [hb i (by omega) (by omega)]
  rw [h1, hbar]

lemma evaluatePrimes_congr {gs gs' : GameState} (h : BoardEq gs gs') (player : Int) :
    evaluatePrimes gs player = evaluatePrimes gs' player := by
  obtain ⟨hb, -, -⟩ := h
  unfold evaluatePrimes
  have hm : (boardRange.map fun i => madeB gs player i) =
      boardRange.map fun i => madeB gs' player i :=
    List.map_congr_left fun i hi => by
      have hmi := mem_boardRange.mp hi
      unfold madeB
      rw [hb i hmi.1 hmi.2]
  rw [hm]

lemma evaluateAnchors_congr {gs gs' : GameState} (h : BoardEq gs gs') (player : Int) :
    evaluateAnchors gs player = evaluateAnchors gs' player := by
  obtain ⟨hb, -, -⟩ := h
  unfold evaluateAnchors
  have h1 := foldl_congrF (intRange 1 6)
    (fun acc i =>
      if (boardGet gs.board i).player = player ∧ 2 ≤ (boardGet gs.board i).count then
        { count := acc.count + 1,
          score := acc.score + (7 - i) * 5 + (boardGet gs.board i).count * 2,
          positions := acc.positions ++ [i] }
      else acc)
    (fun acc i =>
      if (boardGet gs'.board i).player = player ∧ 2 ≤ (boardGet gs'.board i).count then
        { count := acc.count + 1,
          score := acc.score + (7 - i) * 5 + (boardGet gs'.board i).count * 2,
          positions := acc.positions ++ [i] }
      else acc)
    (⟨0, 0, []⟩ : AnchorsResult)
    (fun i hi acc => by
      have hm := mem_intRange.mp hi
      dsimp only
      rw [hb i (by omega) (by omega)])
  have h2 := foldl_congrF (intRange 19 6)
    (fun acc i =>
      if (boardGet gs.board i).player = player ∧ 2 ≤ (boardGet gs.board i).count then
        { count := acc.count + 1,
          score := acc.score + (i - 18) * 5 + (boardGet gs.board i).count * 2,
          positions := acc.positions ++ [i] }
      else acc)
    (fun acc i =>
      if (boardGet gs'.board i).player = player ∧ 2 ≤ (boardGet gs'.board i).count then
        { count := acc.count + 1,
          score := acc.score + (i - 18) * 5 + (boardGet gs'.board i).count * 2,
          positions := acc.positions ++ [i] }
      else acc)
    (⟨0, 0, []⟩ : AnchorsResult)
    (fun i hi acc => by
      have hm := mem_intRange.mp hi
      dsimp only
      rw [hb i (by omega) (by omega)])
  rw [h1, h2]

lemma keyPointBounds : ∀ p ∈ KEY_POINT_PRIORITIES, 1 ≤ p.1 ∧ p.1 ≤ 24 := by
  intro p hp
  simp only [KEY_POINT_PRIORITIES, List.mem_cons, List.not_mem_nil, or_false] at hp
  rcases hp with rfl | rfl | rfl | rfl | rfl | rfl <;> exact ⟨by norm_num, by norm_num⟩

lemma evaluateKeyPointControl_congr {gs gs' : GameState} (h : BoardEq gs gs') :
    evaluateKeyPointControl gs = evaluateKeyPointControl gs' := by
  obtain ⟨hb, -, -⟩ := h
  unfold evaluateKeyPointControl
  have hst := foldl_congrF KEY_POINT_PRIORITIES
    (fun score pref =>
      let pointState := boardGet gs.board pref.1
      if pointState.player = 2 then
        if 2 ≤ pointState.count then score + KEY_POINT_STACK_BONUS * pref.2
        else if pointState.count = 1 then score + KEY_POINT_SINGLE_BONUS * pref.2
        else score
      else if pointState.player = 1 then
        if 2 ≤ pointState.count then score - KEY_POINT_OPPONENT_BLOCK_PENALTY * pref.2
        else if pointState.count = 1 then score - KEY_POINT_OPPONENT_BLOT_PENALTY * pref.2
        else score
      else score)
    (fun score pref =>
      let pointState := boardGet gs'.board pref.1
      if pointState.player = 2 then
        if 2 ≤ pointState.count then score + KEY_POINT_STACK_BONUS * pref.2
        else if pointState.count = 1 then score + KEY_POINT_SINGLE_BONUS * pref.2
        else score
      else if pointState.player = 1 then
        if 2 ≤ pointState.count then score - KEY_POINT_OPPONENT_BLOCK_PENALTY * pref.2
        else if pointState.count = 1 then score - KEY_POINT_OPPONENT_BLOT_PENALTY * pref.2
        else score
      else score)
    (0 : ℚ)
    (fun p hp acc => by
      have hm := keyPointBounds p hp
      dsimp only
      rw [hb p.1 hm.1 hm.2])
  rw [hst]

lemma evaluateBlotSafety_congr {gs gs' : GameState} (h : BoardEq gs gs') (player : Int) :
    evaluateBlotSafety gs player = evaluateBlotSafety gs' player := by
  obtain ⟨hb, hbar, -⟩ := h
  unfold evaluateBlotSafety
  dsimp only
  apply foldl_congrF
  intro i hi acc
  dsimp only
  have hm := mem_boardRange.mp hi
  have hin : (boardRange.any fun j =>
      (boardGet gs.board j).player = opponentOf player ∧
      0 < (boardGet gs.board j).count ∧
      0 < (if player = 1 then i - j else j - i) ∧
      (if player = 1 then i - j else j - i) ≤ 6) =
      boardRange.any fun j =>
      (boardGet gs'.board j).player = opponentOf player ∧
      0 < (boardGet gs'.board j).count ∧
      0 < (if player = 1 then i - j else j - i) ∧
      (if player = 1 then i - j else j - i) ≤ 6 :=
    any_congrF _ _ _ fun j hj => by
      have hmj := mem_boardRange.mp hj
      rw [hb j hmj.1 hmj.2]
  rw [hb i hm.1 hm.2, hin, hbar]

lemma evaluateHomeBoardStructure_congr {gs gs' : GameState} (h : BoardEq gs gs')
    (player : Int) :
    evaluateHomeBoardStructure gs player = evaluateHomeBoardStructure gs' player := by
  obtain ⟨hb, -, -⟩ := h
  unfold evaluateHomeBoardStructure
  dsimp only
  have h1 := foldl_congrF (intRange 19 6)
    (fun st i =>
      if (boardGet gs.board i).player = player ∧ 2 ≤ (boardGet gs.board i).count then
        { structureScore := st.structureScore +
            (if player = 1 then (i - 18) * 3 else (7 - i) * 3),
          madePoints := st.madePoints + 1,
          gaps := (if st.lastPoint ≠ -1 ∧ 1 < i - st.lastPoint then
              st.gaps + (i - st.lastPoint - 1)
            else st.gaps),
          lastPoint := i }
      else st)
    (fun st i =>
      if (boardGet gs'.board i).player = player ∧ 2 ≤ (boardGet gs'.board i).count then
        { structureScore := st.structureScore +
            (if player = 1 then (i - 18) * 3 else (7 - i) * 3),
          madePoints := st.madePoints + 1,
          gaps := (if st.lastPoint ≠ -1 ∧ 1 < i - st.lastPoint then
              st.gaps + (i - st.lastPoint - 1)
            else st.gaps),
          lastPoint := i }
      else st)
    (⟨0, 0, 0, -1⟩ : HomeStructState)
    (fun i hi acc => by
      have hm := mem_intRange.mp hi
      dsimp only
      rw [hb i (by omega) (by omega)])
  have h2 := foldl_congrF (intRange 1 6)
    (fun st i =>
      if (boardGet gs.board i).player = player ∧ 2 ≤ (boardGet gs.board i).count then
        { structureScore := st.structureScore +
            (if player = 1 then (i - 18) * 3 else (7 - i) * 3),
          madePoints := st.madePoints + 1,
          gaps := (if st.lastPoint ≠ -1 ∧ 1 < i - st.lastPoint then
              st.gaps + (i - st.lastPoint - 1)
            else st.gaps),
          lastPoint := i }
      else st)
    (fun st i =>
      if (boardGet gs'.board i).player = player ∧ 2 ≤ (boardGet gs'.board i).count then
        { structureScore := st.structureScore +
            (if player = 1 then (i - 18) * 3 else (7 - i) * 3),
          madePoints := st.madePoints + 1,
          gaps := (if st.lastPoint ≠ -1 ∧ 1 < i - st.lastPoint then
              st.gaps + (i - st.lastPoint - 1)
            else st.gaps),
          lastPoint := i }
      else st)
    (⟨0, 0, 0, -1⟩ : HomeStructState)
    (fun i hi acc => by
      have hm := mem_intRange.mp hi
      dsimp only
      rw [hb i (by omega) (by omega)])
  rw [h1, h2]

lemma evaluateCrunching_congr {gs gs' : GameState} (h : BoardEq gs gs') (player : Int) :
    evaluateCrunching gs player = evaluateCrunching gs' player := by
  have hall := allCheckersInHomeBoardForAI_congr h player
  obtain ⟨hb, -, -⟩ := h
  unfold evaluateCrunching
  dsimp only
  have hst := foldl_congrF boardRange
    (fun st i =>
      if (boardGet gs.board i).player = player ∧ 0 < (boardGet gs.board i).count then
        { total := st.total + (boardGet gs.board i).count, occupied := st.occupied + 1,
          maxStack := max st.maxStack (boardGet gs.board i).count,
          home := (if (if player = 1 then 19 ≤ i ∧ i ≤ 24 else 1 ≤ i ∧ i ≤ 6) then
              st.home + (boardGet gs.board i).count
            else st.home),
          high := (if (if player = 1 then 19 ≤ i ∧ i ≤ 24 else 1 ≤ i ∧ i ≤ 6) ∧
                (if player = 1 then i ≤ 21 else 4 ≤ i) then
              st.high + (boardGet gs.board i).count
            else st.high),
          fullPoints := (if (if player = 1 then 19 ≤ i ∧ i ≤ 24 else 1 ≤ i ∧ i ≤ 6) ∧
                4 ≤ (boardGet gs.board i).count then
              st.fullPoints + 1
            else st.fullPoints) }
      else st)
    (fun st i =>
      if (boardGet gs'.board i).player = player ∧ 0 < (boardGet gs'.board i).count then
        { total := st.total + (boardGet gs'.board i).count, occupied := st.occupied + 1,
          maxStack := max st.maxStack (boardGet gs'.board i).count,
          home := (if (if player = 1 then 19 ≤ i ∧ i ≤ 24 else 1 ≤ i ∧ i ≤ 6) then
              st.home + (boardGet gs'.board i).count
            else st.home),
          high := (if (if player = 1 then 19 ≤ i ∧ i ≤ 24 else 1 ≤ i ∧ i ≤ 6) ∧
                (if player = 1 then i ≤ 21 else 4 ≤ i) then
              st.high + (boardGet gs'.board i).count
            else st.high),
          fullPoints := (if (if player = 1 then 19 ≤ i ∧ i ≤ 24 else 1 ≤ i ∧ i ≤ 6) ∧
                4 ≤ (boardGet gs'.board i).count then
              st.fullPoints + 1
            else st.fullPoints) }
      else st)
    (⟨0, 0, 0, 0, 0, 0⟩ : CrunchState)
    (fun i hi acc => by
      have hm := mem_boardRange.mp hi
      dsimp only
      rw [hb i hm.1 hm.2])
  rw [hst, hall]

lemma calculateDynamicPipWeight_congr {gs gs' : GameState} (h : BoardEq gs gs')
    (baseWeight : ℚ) (phase : String) :
    calculateDynamicPipWeight gs baseWeight phase =
      calculateDynamicPipWeight gs' baseWeight phase := by
  have hp2 := calculatePipCount_congr h 2
  have hp1 := calculatePipCount_congr h 1
  obtain ⟨hb, -, hoff⟩ := h
  unfold calculateDynamicPipWeight
  dsimp only
  have h1 : ((intRange 1 7).map fun p =>
      if (boardGet gs.board p).player = 2 then (boardGet gs.board p).count else 0) =
      (intRange 1 7).map fun p =>
      if (boardGet gs'.board p).player = 2 then (boardGet gs'.board p).count else 0 :=
    List.map_congr_left fun p hp => by
      have hm := mem_intRange.mp hp
      rw [hb p (by omega) (by omega)]
  have h2 : ((intRange 1 7).map fun p =>
      if (boardGet gs.board p).player = 1 then (boardGet gs.board p).count else 0) =
      (intRange 1 7).map fun p =>
      if (boardGet gs'.board p).player = 1 then (boardGet gs'.board p).count else 0 :=
    List.map_congr_left fun p hp => by
      have hm := mem_intRange.mp hp
      rw [hb p (by omega) (by omega)]
  rw [hp2, hp1, h1, h2, hoff]

lemma phaseWeights_congr {gs gs' : GameState} (h : BoardEq gs gs') (phase : String) :
    phaseWeights gs phase = phaseWeights gs' phase := by
  unfold phaseWeights
  split_ifs <;> rw [calculateDynamicPipWeight_congr h]

lemma isPrimingOrBlitzing_congr {gs gs' : GameState} (h : BoardEq gs gs') (player : Int) :
    isPrimingOrBlitzing gs player = isPrimingOrBlitzing gs' player := by
  have hpr := evaluatePrimes_congr h player
  have hbl := evaluateBlotSafety_congr h player
  obtain ⟨-, hbar, -⟩ := h
  unfold isPrimingOrBlitzing
  dsimp only
  rw [hpr, hbl, hbar]

lemma detectGamePhase_congr {gs gs' : GameState} (h : BoardEq gs gs') :
    detectGamePhase gs = detectGamePhase gs' := by
  unfold detectGamePhase
  dsimp only
  rw [evaluatePrimes_congr h 2, evaluatePrimes_congr h 1,
    allCheckersInHomeBoardForAI_congr h 1, allCheckersInHomeBoardForAI_congr h 2,
    calculatePipCount_congr h 1, calculatePipCount_congr h 2,
    isPrimingOrBlitzing_congr h 2]

lemma evaluatePositionMain_congr {gs gs' : GameState} (h : BoardEq gs gs') :
    evaluatePositionMain gs = evaluatePositionMain gs' := by
  have hph := detectGamePhase_congr h
  have hw := phaseWeights_congr h
  have hp2 := calculatePipCount_congr h 2
  have hp1 := calculatePipCount_congr h 1
  have hrc := calculateRaceCount_congr h 2
  have hh2 := evaluateHomeBoardStructure_congr h 2
  have hh1 := evaluateHomeBoardStructure_congr h 1
  have hb2 := evaluateBlotSafety_congr h 2
  have hb1 := evaluateBlotSafety_congr h 1
  have hpr2 := evaluatePrimes_congr h 2
  have hpr1 := evaluatePrimes_congr h 1
  have ha2 := evaluateAnchors_congr h 2
  have ha1 := evaluateAnchors_congr h 1
  have hd2 := calculateDistribution_congr h 2
  have hd1 := calculateDistribution_congr h 1
  have hc2 := evaluateCrunching_congr h 2
  have hc1 := evaluateCrunching_congr h 1
  have hk := evaluateKeyPointControl_congr h
  have hnc := hasNoContactOnPlayer2Side_congr h
  obtain ⟨hb, hbar, hoff⟩ := h
  have hhome : ((intRange 1 6).map fun i =>
      if (boardGet gs.board i).player = 2 ∧ 0 < (boardGet gs.board i).count then
        (boardGet gs.board i).count
      else 0) = (intRange 1 6).map fun i =>
      if (boardGet gs'.board i).player = 2 ∧ 0 < (boardGet gs'.board i).count then
        (boardGet gs'.board i).count
      else 0 :=
    List.map_congr_left fun i hi => by
      have hm := mem_intRange.mp hi
      rw [hb i (by omega) (by omega)]
  unfold evaluatePositionMain
  dsimp only
  rw [hph, hw, hp2, hp1, hrc, hh2, hh1, hb2, hb1, hpr2, hpr1, ha2, ha1, hd2, hd1,
    hc2, hc1, hk, hnc, hhome, hbar, hoff]

lemma evaluatePosition_congr {gs gs' : GameState} (h : BoardEq gs gs') :
    evaluatePosition gs = evaluatePosition gs' := by
  have hm := evaluatePositionMain_congr h
  obtain ⟨-, -, hoff⟩ := h
  unfold evaluatePosition
  rw [hm, hoff]

lemma flatMapPair_inj : ∀ (l : List Int) (f g : Int → PointState),
    ((l.map f).flatMap fun p => [p.player, p.count]) =
      ((l.map g).flatMap fun p => [p.player, p.count]) →
    ∀ i ∈ l, f i = g i := by
  intro l
  induction l with
  | nil =>
    intro f g _ i hi
    simp at hi
  | cons a t ih =>
    intro f g h i hi
    simp only [List.map_cons, List.flatMap_cons, List.cons_append, List.nil_append,
      List.cons.injEq] at h
    obtain ⟨h1, h2, h3⟩ := h
    rcases List.mem_cons.mp hi with rfl | hit
    · calc f i = ⟨(f i).player, (f i).count⟩ := rfl
        _ = ⟨(g i).player, (g i).count⟩ := by rw [h1, h2]
        _ = g i := rfl
    · exact ih f g h3 i hit

lemma flatMapPair_length : ∀ (l : List PointState),
    (l.flatMap fun p => [p.player, p.count]).length = 2 * l.length := by
  intro l
  induction l with
  | nil => rfl
  | cons p t ih =>
    simp only [List.flatMap_cons, List.length_append, List.length_cons, ih,
      List.length_nil]
    omega

lemma hashPosition_inj {gs gs' : GameState}
    (h : hashPosition gs = hashPosition gs') : BoardEq gs gs' := by
  unfold hashPosition at h
  have hlen : ((boardRange.map fun i => boardGet gs.board i).flatMap
      fun p => [p.player, p.count]).length =
      ((boardRange.map fun i => boardGet gs'.board i).flatMap
      fun p => [p.player, p.count]).length := by
    rw [flatMapPair_length, flatMapPair_length, List.length_map, List.length_map]
  obtain ⟨hA, hB⟩ := List.append_inj h hlen
  simp only [List.cons.injEq, and_true] at hB
  obtain ⟨hb1, hb2, ho1, ho2⟩ := hB
  refine ⟨?_, ?_, ?_⟩
  · intro i h1 h2
    exact flatMapPair_inj boardRange _ _ hA i (mem_boardRange.mpr ⟨h1, h2⟩)
  · calc gs.bar = ⟨gs.bar.player1, gs.bar.player2⟩ := rfl
      _ = ⟨gs'.bar.player1, gs'.bar.player2⟩ := by rw [hb1, hb2]
      _ = gs'.bar := rfl
  · calc gs.bearoff = ⟨gs.bearoff.player1, gs.bearoff.player2⟩ := rfl
      _ = ⟨gs'.bearoff.player1, gs'.bearoff.player2⟩ := by rw [ho1, ho2]
      _ = gs'.bearoff := rfl

lemma lookup_mem {α β : Type} [BEq α] [LawfulBEq α] :
    ∀ (l : List (α × β)) (a : α) (b : β), l.lookup a = some b → (a, b) ∈ l := by
  intro l
  induction l with
  | nil =>
    intro a b h
    simp [List.lookup] at h
  | cons e t ih =>
    intro a b h
    obtain ⟨k, v⟩ := e
    rw [List.lookup] at h
    cases hbeq : a == k with
    | true =>
      rw [hbeq] at h
      simp only [Option.some.injEq] at h
      have hak : a = k := eq_of_beq hbeq
      subst hak
      subst h
      exact List.mem_cons_self _ _
    | false =>
      rw [hbeq] at h
      exact List.mem_cons_of_mem _ (ih a b h)

lemma updateCache_valid (cache : List (List Int × ℚ)) (gs : GameState)
    (hv : CacheValid cache) :
    CacheValid (updateCache cache (hashPosition gs) (evaluatePosition gs)) := by
  intro e he gs' hh
  unfold updateCache at he
  dsimp only at he
  rcases List.mem_append.mp he with h1 | h2
  · have hmem : e ∈ cache := by
      by_cases hc : CACHE_SIZE ≤ cache.length
      · rw [if_pos hc] at h1
        exact List.mem_of_mem_drop h1
      · rwa [if_neg hc] at h1
    exact hv e hmem gs' hh
  · simp only [List.mem_singleton] at h2
    subst h2
    exact evaluatePosition_congr (hashPosition_inj hh)

/-- **C8.** The transposition cache is semantically transparent: on any
valid cache (every entry stores the cache-free evaluation of the states
hashing to its key — the shape of every reachable cache, starting from the
empty one), the cached evaluator returns exactly the cache-free
`evaluatePosition` score, and the cache it leaves behind — including after
a size-bound FIFO eviction by `updateCache` — is valid again. Clearing the
cache therefore never changes a computed evaluation. -/
theorem C8_cache_transparent (gs : GameState) (cache : List (List Int × ℚ))
    (hv : CacheValid cache) :
    (evaluatePositionCached gs cache).1 = evaluatePosition gs ∧
    CacheValid (evaluatePositionCached gs cache).2 := by
  unfold evaluatePositionCached
  dsimp only
  cases hl : cache.lookup (hashPosition gs) with
  | some score =>
    dsimp only
    have hmem := lookup_mem cache (hashPosition gs) score hl
    exact ⟨(hv _ hmem gs rfl).symm, hv⟩
  | none =>
    dsimp only
    split_ifs with h15 h15'
    · have he : evaluatePosition gs = 100000 := by
        rw [evaluatePosition, if_pos h15]
      refine ⟨he.symm, ?_⟩
      rw [← he]
      exact updateCache_valid cache gs hv
    · have he : evaluatePosition gs = -100000 := by
        rw [evaluatePosition, if_neg h15, if_pos h15']
      refine ⟨he.symm, ?_⟩
      rw [← he]
      exact updateCache_valid cache gs hv
    · have he : evaluatePosition gs = evaluatePositionMain gs := by
        rw [evaluatePosition, if_neg h15, if_neg h15']
      refine ⟨he.symm, ?_⟩
      rw [← he]
      exact updateCache_valid cache gs hv

/-- Witness for C8: evaluating the opening position against the empty
(trivially valid) cache returns the cache-free score and leaves a valid
cache. -/
theorem C8_cache_transparent_witness :
    CacheValid [] ∧
      ((evaluatePositionCached startState []).1 = evaluatePosition startState ∧
        CacheValid (evaluatePositionCached startState []).2) :=
  ⟨fun e he => absurd he (List.not_mem_nil e),
    C8_cache_transparent startState [] fun e he => absurd he (List.not_mem_nil e)⟩


/- ===== C6: the ORDER step truncates before sorting ===== -/

/-- **C6 (amended).** What `getBestMove` actually does in its ORDER step:
it first truncates the generated sequences to the first
`MAX_SEQUENCES_TO_SEARCH` (20) in generation order (`sequencesToEvaluate`),
and only then scores and sorts those by shallow score descending. So the
ordered candidate list is a permutation of the truncation, arranged in
descending shallow-score order — it is not in general the 20 highest
shallow-scoring sequences. -/
theorem C6_truncate_then_sort (gs : GameState) :
    (orderedCandidates gs).Perm (sequencesToEvaluate gs) ∧
    (orderedCandidates gs).Pairwise
      (fun a b => shallowSequenceScore gs 2 b ≤ shallowSequenceScore gs 2 a) := by
  have htrans : ∀ a b c : List Move × WithBot ℚ, decide (b.2 ≤ a.2) = true →
      decide (c.2 ≤ b.2) = true → decide (c.2 ≤ a.2) = true := by
    intro a b c hab hbc
    rw [decide_eq_true_iff] at hab hbc ⊢
    exact le_trans hbc hab
  have htotal : ∀ a b : List Move × WithBot ℚ,
      (decide (b.2 ≤ a.2) || decide (a.2 ≤ b.2)) = true := by
    intro a b
    rcases le_total a.2 b.2 with h | h <;> simp [h]
  constructor
  · unfold orderedCandidates orderMovesByEvaluation
    dsimp only
    have hp := List.mergeSort_perm ((sequencesToEvaluate gs).map fun sequence =>
      (sequence, shallowSequenceScore gs 2 sequence)) fun a b => decide (b.2 ≤ a.2)
    have hpm := hp.map Prod.fst
    have hcomp : (Prod.fst ∘ fun sequence : List Move =>
        (sequence, shallowSequenceScore gs 2 sequence)) = id := rfl
    rwa [List.map_map, hcomp, List.map_id] at hpm
  · unfold orderedCandidates orderMovesByEvaluation
    dsimp only
    rw [List.pairwise_map]
    have hs := @List.sorted_mergeSort (List Move × WithBot ℚ)
      (fun a b => decide (b.2 ≤ a.2)) htrans htotal
      ((sequencesToEvaluate gs).map fun sequence =>
        (sequence, shallowSequenceScore gs 2 sequence))
    have hshape : ∀ e ∈ ((sequencesToEvaluate gs).map fun sequence =>
        (sequence, shallowSequenceScore gs 2 sequence)).mergeSort
          (fun a b => decide (b.2 ≤ a.2)),
        e.2 = shallowSequenceScore gs 2 e.1 := by
      intro e he
      have hmem := (List.mergeSort_perm _ _).mem_iff.mp he
      obtain ⟨s, -, rfl⟩ := List.mem_map.mp hmem
      rfl
    refine List.Pairwise.imp_of_mem ?_ hs
    intro a b ha hb hab
    rw [← hshape a ha, ← hshape b hb]
    exact decide_eq_true_iff.mp hab

set_option maxRecDepth 100000 in
/-- Counterexample to C6 as stated: on `c6State` (more than 20 generated
sequences) the discarded hitting sequence `c6s` strictly outscores the kept
sequence `c6t`, so the kept candidates are not the highest shallow-scoring
ones — the code truncates in generation order before sorting. -/
theorem C6_sort_before_truncate_fails : ¬ keptAreHighestScoring c6State := by
  intro h
  have h1 : MAX_SEQUENCES_TO_SEARCH <
      (generateAllMoveSequences c6State c6State.availableMoves 2).length := by decide
  have h2 : c6s ∈ generateAllMoveSequences c6State c6State.availableMoves 2 := by decide
  have h3 : c6s ∉ orderedCandidates c6State :=
    of_decide_eq_true (by with_unfolding_all rfl)
  have h4 : c6t ∈ orderedCandidates c6State :=
    of_decide_eq_true (by with_unfolding_all rfl)
  have h5 : ¬ (shallowSequenceScore c6State 2 c6s ≤ shallowSequenceScore c6State 2 c6t) :=
    of_decide_eq_true (by with_unfolding_all rfl)
  exact h5 (h h1 c6s h2 h3 c6t h4)

/-- Witness for C6 (amended): the ORDER step's permutation and descending
order, applied at the opening position. -/
theorem C6_truncate_then_sort_witness :
    (orderedCandidates startState).Perm (sequencesToEvaluate startState) ∧
    (orderedCandidates startState).Pairwise
      (fun a b =>
        shallowSequenceScore startState 2 b ≤ shallowSequenceScore startState 2 a) :=
  C6_truncate_then_sort startState
